import Mathlib

set_option maxHeartbeats 1000000
set_option autoImplicit false

/-!
Shallow embedding of the Key Scheduler of `app/service/key/key_manager.py`
(gemini-balance), together with the module-level singleton life-cycle
(`get_key_manager_instance` / `reset_key_manager_instance`).

Modelling conventions:
- Python float timestamps (`time.time()`) are modelled as integers (the
  claims only constrain order and window arithmetic of timestamps); each
  top-level operation takes the clock value `now` as a parameter.  The
  float usage ratio of `_get_least_used_key` is modelled as an exact
  rational.
- Python dicts holding per-key state are modelled as total functions whose
  meaningful domain is the key pool.  Where a claim depends on the
  `KeyError` a plain dict raises outside that domain
  (`key_request_times` is a plain dict keyed by the pool), an
  Option-valued wrapper models the error case explicitly.
- The field `record_log` is ghost instrumentation: `record_request`
  appends its `(key, model)` argument, so "`_record_request` was called
  exactly once for key k and model m" is observable as a state property.
- Unbounded `while` loops are modelled with an explicit fuel parameter;
  the bounded scan loop of `get_next_working_key_with_rpm`
  (`while checked_count < len(self.api_keys)`) gets fuel equal to its
  syntactic bound, which makes the fueled definition exact.
-/

/-- The configuration values of `app/config/config.py` consumed by the
key manager (`settings.*`). -/
structure Settings where
  MAX_FAILURES : Nat
  MAX_RETRIES : Nat
  PAID_KEY : String
  RPM_LIMITS : List (String × Nat)
  RPM_WINDOW_SECONDS : ℤ
  RPM_PREFER_CACHE : Bool

/-- State of a `KeyManager` instance (`KeyManager.__init__`).  Dict-valued
fields are total functions; their meaningful domain is the corresponding
key pool.  `record_log` is a ghost trace of `_record_request` calls. -/
structure KeyManager where
  api_keys : List String
  vertex_api_keys : List String
  current_key_index : Nat
  current_vertex_key_index : Nat
  key_failure_counts : String → Nat
  vertex_key_failure_counts : String → Nat
  MAX_FAILURES : Nat
  paid_key : String
  key_request_times : String → String → List ℤ
  vertex_key_request_times : String → String → List ℤ
  current_key : Option String
  current_vertex_key : Option String
  last_key_switch_time : ℤ
  last_vertex_key_switch_time : ℤ
  current_model : Option String
  rpm_limits : List (String × Nat)
  rpm_window_seconds : ℤ
  rpm_prefer_cache : Bool
  record_log : List (String × String)

/-- `KeyManager(api_keys, vertex_api_keys)`: fresh instance built from the
settings.  All failure counts are 0 and all request windows are empty
(the Python dicts are `{key: 0 ...}` resp. `{key: defaultdict(deque) ...}`
over the pool). -/
def mkKeyManager (st : Settings) (api_keys vertex_api_keys : List String) : KeyManager :=
  { api_keys := api_keys
    vertex_api_keys := vertex_api_keys
    current_key_index := 0
    current_vertex_key_index := 0
    key_failure_counts := fun _ => 0
    vertex_key_failure_counts := fun _ => 0
    MAX_FAILURES := st.MAX_FAILURES
    paid_key := st.PAID_KEY
    key_request_times := fun _ _ => []
    vertex_key_request_times := fun _ _ => []
    current_key := none
    current_vertex_key := none
    last_key_switch_time := 0
    last_vertex_key_switch_time := 0
    current_model := none
    rpm_limits := st.RPM_LIMITS
    rpm_window_seconds := st.RPM_WINDOW_SECONDS
    rpm_prefer_cache := st.RPM_PREFER_CACHE
    record_log := [] }

/-- Python truthiness of an `Optional[str]`: `None` and `""` are falsy. -/
def opt_str_truthy : Option String → Bool
  | none => false
  | some s => decide (s ≠ "")

/-- `_clean_old_requests`: pop from the head of the window while the head
timestamp is strictly older than `now - rpm_window_seconds`. -/
def clean_old_requests (window_seconds now : ℤ) (timestamps : List ℤ) : List ℤ :=
  timestamps.dropWhile (fun t => decide (t < now - window_seconds))

/-- Point update of a per-(key, model) window table. -/
def update_window (f : String → String → List ℤ) (key model : String)
    (v : List ℤ) : String → String → List ℤ :=
  fun k2 m2 => if k2 = key ∧ m2 = model then v else f k2 m2

/-- `_get_rpm_count(key, model, is_vertex)`: clean the (key, model) window
in place, then return its length.  Total version; the Python dict lookup
`self.key_request_times[key]` additionally requires `key` to be a pool
key (see `get_rpm_count_checked`). -/
def get_rpm_count (m : KeyManager) (key model : String) (is_vertex : Bool)
    (now : ℤ) : Nat × KeyManager :=
  if is_vertex then
    let ts := clean_old_requests m.rpm_window_seconds now (m.vertex_key_request_times key model)
    (ts.length,
     { m with vertex_key_request_times := update_window m.vertex_key_request_times key model ts })
  else
    let ts := clean_old_requests m.rpm_window_seconds now (m.key_request_times key model)
    (ts.length,
     { m with key_request_times := update_window m.key_request_times key model ts })

/-- `_get_rpm_count` with the domain of the outer dict made explicit:
`self.key_request_times` is a plain dict whose keys are exactly the pool
keys, so the lookup raises `KeyError` (modelled as `none`) for a key that
is not in the pool.  The inner dict is a `defaultdict(deque)`, so a model
never recorded yields an empty window. -/
def get_rpm_count_checked (m : KeyManager) (key model : String) (now : ℤ) :
    Option (Nat × KeyManager) :=
  if key ∈ m.api_keys then some (get_rpm_count m key model false now) else none

/-- `_record_request(key, model, is_vertex)`: append `now` to the
(key, model) window.  Also appends to the ghost `record_log`. -/
def record_request (m : KeyManager) (key model : String) (is_vertex : Bool)
    (now : ℤ) : KeyManager :=
  if is_vertex then
    { m with
      vertex_key_request_times :=
        update_window m.vertex_key_request_times key model
          (m.vertex_key_request_times key model ++ [now])
      record_log := m.record_log ++ [(key, model)] }
  else
    { m with
      key_request_times :=
        update_window m.key_request_times key model
          (m.key_request_times key model ++ [now])
      record_log := m.record_log ++ [(key, model)] }

/-- Python `needle in haystack` on lists of characters. -/
def char_list_contains (needle : List Char) : List Char → Bool
  | [] => needle.isEmpty
  | c :: t => needle.isPrefixOf (c :: t) || char_list_contains needle t

/-- Python substring containment `needle in haystack`. -/
def str_contains (haystack needle : String) : Bool :=
  char_list_contains needle.toList haystack.toList

/-- Python `str.lower()` (character-wise). -/
def to_lower (s : String) : String :=
  String.mk (s.toList.map Char.toLower)

/-- Python `str.split('-')` worker: accumulate the current (reversed)
chunk, emitting it at each dash and at the end. -/
def split_on_dash_aux (cur : List Char) : List Char → List (List Char)
  | [] => [cur.reverse]
  | c :: rest =>
    if c = '-' then cur.reverse :: split_on_dash_aux [] rest
    else split_on_dash_aux (c :: cur) rest

/-- Python `str.split('-')`. -/
def split_on_dash (s : String) : List String :=
  (split_on_dash_aux [] s.toList).map String.mk

/-- A single `rpm_limits` entry fuzzy-matches `model_lower` when one of the
three `elif` conditions of `_get_rpm_limit_for_model` holds for it:
its dash-split lowercase parts (`key.lower().split('-')`) contain `lite` /
`flash` / `pro` and the lowercased model contains the same token as a
substring (for `flash`, additionally the model must not contain `lite`). -/
def fuzzy_entry_matches (entry_key model_lower : String) : Bool :=
  let key_parts := split_on_dash (to_lower entry_key)
  (key_parts.contains "lite" && str_contains model_lower "lite")
  || (key_parts.contains "flash" && str_contains model_lower "flash"
        && !(str_contains model_lower "lite"))
  || (key_parts.contains "pro" && str_contains model_lower "pro")

/-- First binding of `key` in an association list (dict lookup). -/
def assoc_lookup (l : List (String × Nat)) (key : String) : Option Nat :=
  (l.find? (fun p => p.1 == key)).map (fun p => p.2)

/-- `min(values)` over a dict's values with Python's
`min(...) if d else 10` fallback for the empty dict. -/
def nat_list_min : List Nat → Nat
  | [] => 10
  | x :: xs => xs.foldl min x

/-- Body of `_get_rpm_limit_for_model` as a function of the configured
limit map: exact dict lookup, else the value of the first fuzzy-matching
entry in dict (insertion) order, else the minimum configured value, else
10 when the map is empty. -/
def rpm_limit_of (limits : List (String × Nat)) (model : String) : Nat :=
  match assoc_lookup limits model with
  | some v => v
  | none =>
    let model_lower := to_lower model
    match limits.find? (fun p => fuzzy_entry_matches p.1 model_lower) with
    | some p => p.2
    | none => nat_list_min (limits.map (fun p => p.2))

/-- `_get_rpm_limit_for_model(model)` (reads `self.rpm_limits`). -/
def get_rpm_limit_for_model (m : KeyManager) (model : String) : Nat :=
  rpm_limit_of m.rpm_limits model

/-- `is_key_valid(key)`: failure count strictly below `MAX_FAILURES`.
(The Python dict lookup requires `key` to be in the pool.) -/
def is_key_valid (m : KeyManager) (key : String) : Bool :=
  decide (m.key_failure_counts key < m.MAX_FAILURES)

/-- `is_vertex_key_valid(key)` for the auxiliary pool. -/
def is_vertex_key_valid (m : KeyManager) (key : String) : Bool :=
  decide (m.vertex_key_failure_counts key < m.MAX_FAILURES)

/-- `is_key_within_rpm_limit(key, model, is_vertex)`: current cleaned RPM
count strictly below the model's limit; threads the cleaned window. -/
def is_key_within_rpm_limit (m : KeyManager) (key model : String)
    (is_vertex : Bool) (now : ℤ) : Bool × KeyManager :=
  let rpm_limit := get_rpm_limit_for_model m model
  let p := get_rpm_count m key model is_vertex now
  (decide (p.1 < rpm_limit), p.2)

/-- `get_next_key()`: return the key at the rotation cursor and advance the
cursor by one modulo the pool size; empty pool yields `""`. -/
def get_next_key (m : KeyManager) : String × KeyManager :=
  if m.api_keys.isEmpty then ("", m)
  else
    (m.api_keys.getD m.current_key_index "",
     { m with current_key_index := (m.current_key_index + 1) % m.api_keys.length })

/-- `get_next_vertex_key()` for the auxiliary pool. -/
def get_next_vertex_key (m : KeyManager) : String × KeyManager :=
  if m.vertex_api_keys.isEmpty then ("", m)
  else
    (m.vertex_api_keys.getD m.current_vertex_key_index "",
     { m with current_vertex_key_index :=
        (m.current_vertex_key_index + 1) % m.vertex_api_keys.length })

/-- The rotating-scan loop of `get_next_working_key_with_rpm`
(`while checked_count < len(self.api_keys)`), with fuel equal to the
remaining iterations of its syntactic bound.  On success returns the
chosen key; in both cases returns the threaded state (window cleanups
performed by the per-key checks persist). -/
def rpm_scan_loop (model : String) (now : ℤ) (start_index n : Nat) :
    Nat → Nat → KeyManager → Option String × KeyManager
  | 0, _, m => (none, m)
  | fuel + 1, checked_count, m =>
    let check_index := (start_index + checked_count) % n
    let key := m.api_keys.getD check_index ""
    let m1 := (get_rpm_count m key model false now).2
    let valid := is_key_valid m1 key
    let p := is_key_within_rpm_limit m1 key model false now
    if valid && p.1 then
      let m3 := { p.2 with current_key_index := (check_index + 1) % n, current_key := some key }
      (some key, record_request m3 key model false now)
    else
      rpm_scan_loop model now start_index n fuel (checked_count + 1) p.2

/-- The scan of `_get_least_used_key`: fold over the pool keeping the
valid key with the strictly lowest usage ratio seen so far (`float('inf')`
initial value is modelled by `none`). -/
def least_used_loop (model : String) (now : ℤ) (rpm_limit : Nat) :
    List String → Option String → Option ℚ → KeyManager → Option String × KeyManager
  | [], best, _, m => (best, m)
  | key :: rest, best, lowest, m =>
    if is_key_valid m key then
      let p := get_rpm_count m key model false now
      let usage : ℚ := if 0 < rpm_limit then (p.1 : ℚ) / (rpm_limit : ℚ) else 0
      let better : Bool :=
        match lowest with
        | none => true
        | some lo => decide (usage < lo)
      if better then least_used_loop model now rpm_limit rest (some key) (some usage) p.2
      else least_used_loop model now rpm_limit rest best lowest p.2
    else least_used_loop model now rpm_limit rest best lowest m

/-- `_get_least_used_key(model)`. -/
def get_least_used_key (m : KeyManager) (model : String) (now : ℤ) :
    Option String × KeyManager :=
  least_used_loop model now (get_rpm_limit_for_model m model) m.api_keys none none m

/-- `.index(x)` of a Python list (first index; only used where the element
is known to be present). -/
def list_index (l : List String) (x : String) : Nat :=
  l.findIdx (fun y => y == x)

/-- Lines 239-298 of `get_next_working_key_with_rpm` (everything after the
cache-affinity path, starting at the `if not self.api_keys` check): the
rotating scan, the least-used fallback and the forced path.  `m'` is the
state after the cache path fell through. -/
def choose_scan_phase (m' : KeyManager) (model : String) (now : ℤ) :
    String × KeyManager :=
  if m'.api_keys.isEmpty then ("", m')
  else
    let n := m'.api_keys.length
    match rpm_scan_loop model now m'.current_key_index n n 0 m' with
    | (some key, m'') => (key, m'')
    | (none, m'') =>
      match get_least_used_key m'' model now with
      | (some best_key, m3) =>
        let best_index := list_index m3.api_keys best_key
        let m4 := { m3 with current_key_index := (best_index + 1) % n,
                            current_key := some best_key }
        (best_key, record_request m4 best_key model false now)
      | (none, m3) =>
        let key := m3.api_keys.getD m3.current_key_index ""
        let m4 := { m3 with current_key_index := (m3.current_key_index + 1) % n,
                            current_key := some key }
        (key, record_request m4 key model false now)

/-- `get_next_working_key_with_rpm(model)`: record the model, try the
cache-affinity path, then `choose_scan_phase` (rotating scan, least-used
fallback, forced path).  Every returning path records exactly one request
for the returned key. -/
def get_next_working_key_with_rpm (m0 : KeyManager) (model : String) (now : ℤ) :
    String × KeyManager :=
  let m : KeyManager := { m0 with current_model := some model }
  let cache_step : Option String × KeyManager :=
    if m.rpm_prefer_cache && opt_str_truthy m.current_key then
      let ck := m.current_key.getD ""
      let m1 := (get_rpm_count m ck model false now).2
      let valid := is_key_valid m1 ck
      let p := is_key_within_rpm_limit m1 ck model false now
      if valid && p.1 then (some ck, record_request p.2 ck model false now)
      else (none, p.2)
    else (none, m)
  match cache_step with
  | (some ck, m') => (ck, m')
  | (none, m') => choose_scan_phase m' model now

/-- The `while True` loop of `get_next_working_key` (legacy, non-RPM),
fueled.  Each iteration returns the current key if it is valid, otherwise
draws the next key, returning it anyway when the rotation has wrapped back
to the initially drawn key. -/
def working_key_loop : Nat → KeyManager → String → String → Option (String × KeyManager)
  | 0, _, _, _ => none
  | fuel + 1, m, initial_key, current_key =>
    if is_key_valid m current_key then some (current_key, m)
    else
      let p := get_next_key m
      if p.1 = initial_key then some (p.1, p.2)
      else working_key_loop fuel p.2 initial_key p.1

/-- `get_next_working_key()` (legacy, non-RPM), fueled. -/
def get_next_working_key (m : KeyManager) (fuel : Nat) :
    Option (String × KeyManager) :=
  let p := get_next_key m
  working_key_loop fuel p.2 p.1 p.1

/-- `handle_api_failure(api_key, retries, model)`: increment the key's
failure counter; when `retries < MAX_RETRIES`, clear the cached key and
re-select with `get_next_working_key_with_rpm` for `model or
self.current_model` (falling back to the legacy non-RPM selection when
neither is a truthy model string); otherwise return `""`.
`settings.MAX_RETRIES` is read at call time, hence the `st` argument;
`fuel` is only consumed by the legacy fallback. -/
def handle_api_failure (st : Settings) (m : KeyManager) (api_key : String)
    (retries : Nat) (model : Option String) (now : ℤ) (fuel : Nat) :
    Option (String × KeyManager) :=
  let m1 : KeyManager :=
    { m with key_failure_counts :=
        fun k => if k = api_key then m.key_failure_counts k + 1 else m.key_failure_counts k }
  if retries < st.MAX_RETRIES then
    let model_to_use : Option String :=
      if opt_str_truthy model then model else m1.current_model
    if opt_str_truthy model_to_use then
      let m2 : KeyManager := { m1 with current_key := none }
      some (get_next_working_key_with_rpm m2 (model_to_use.getD "") now)
    else
      get_next_working_key m1 fuel
  else
    some ("", m1)

/-- `get_keys_by_status()`: partition the pool, in order, into
`(valid_keys, invalid_keys)` pairs `(key, fail_count)` by
`fail_count < MAX_FAILURES`. -/
def get_keys_by_status (m : KeyManager) : List (String × Nat) × List (String × Nat) :=
  m.api_keys.foldl
    (fun acc key =>
      let fail_count := m.key_failure_counts key
      if fail_count < m.MAX_FAILURES then (acc.1 ++ [(key, fail_count)], acc.2)
      else (acc.1, acc.2 ++ [(key, fail_count)]))
    ([], [])

/-- The scan of `_get_least_used_vertex_key`. -/
def least_used_vertex_loop (model : String) (now : ℤ) (rpm_limit : Nat) :
    List String → Option String → Option ℚ → KeyManager → Option String × KeyManager
  | [], best, _, m => (best, m)
  | key :: rest, best, lowest, m =>
    if is_vertex_key_valid m key then
      let p := get_rpm_count m key model true now
      let usage : ℚ := if 0 < rpm_limit then (p.1 : ℚ) / (rpm_limit : ℚ) else 0
      let better : Bool :=
        match lowest with
        | none => true
        | some lo => decide (usage < lo)
      if better then least_used_vertex_loop model now rpm_limit rest (some key) (some usage) p.2
      else least_used_vertex_loop model now rpm_limit rest best lowest p.2
    else least_used_vertex_loop model now rpm_limit rest best lowest m

/-- `_get_least_used_vertex_key(model)`. -/
def get_least_used_vertex_key (m : KeyManager) (model : String) (now : ℤ) :
    Option String × KeyManager :=
  least_used_vertex_loop model now (get_rpm_limit_for_model m model)
    m.vertex_api_keys none none m

/-- The `while True` loop of `get_next_working_vertex_key_with_rpm`,
fueled.  An already-checked key triggers the least-used / forced exits;
otherwise the key is added to `checked_keys` and either selected
(valid and within limit, with Python's short-circuit `and`) or the scan
moves on to the next rotation key. -/
def vertex_scan_loop (model : String) (now : ℤ) :
    Nat → String → List String → KeyManager → Option (String × KeyManager)
  | 0, _, _, _ => none
  | fuel + 1, current_key, checked_keys, m =>
    if current_key ∈ checked_keys then
      match get_least_used_vertex_key m model now with
      | (some best_key, m') =>
        some (best_key,
          record_request { m' with current_vertex_key := some best_key } best_key model true now)
      | (none, m') =>
        some (current_key,
          record_request { m' with current_vertex_key := some current_key } current_key model true now)
    else
      let checked' := current_key :: checked_keys
      if is_vertex_key_valid m current_key then
        let p := is_key_within_rpm_limit m current_key model true now
        if p.1 then
          some (current_key,
            record_request { p.2 with current_vertex_key := some current_key } current_key model true now)
        else
          let q := get_next_vertex_key p.2
          vertex_scan_loop model now fuel q.1 checked' q.2
      else
        let q := get_next_vertex_key m
        vertex_scan_loop model now fuel q.1 checked' q.2

/-- `get_next_working_vertex_key_with_rpm(model)`, fueled: cache-affinity
path (with short-circuit validity check) then the checked-keys scan. -/
def get_next_working_vertex_key_with_rpm (m : KeyManager) (model : String)
    (now : ℤ) (fuel : Nat) : Option (String × KeyManager) :=
  let after_cache : Option String × KeyManager :=
    if m.rpm_prefer_cache && opt_str_truthy m.current_vertex_key then
      let ck := m.current_vertex_key.getD ""
      if is_vertex_key_valid m ck then
        let p := is_key_within_rpm_limit m ck model true now
        if p.1 then (some ck, record_request p.2 ck model true now)
        else (none, p.2)
      else (none, m)
    else (none, m)
  match after_cache with
  | (some ck, m') => some (ck, m')
  | (none, m') =>
    let q := get_next_vertex_key m'
    vertex_scan_loop model now fuel q.1 [] q.2

/-- The module-level globals of `key_manager.py` around the singleton:
`_singleton_instance` and the six `_preserved_*` variables. -/
structure SingletonState where
  inst : Option KeyManager
  preserved_failure_counts : Option (List (String × Nat))
  preserved_vertex_failure_counts : Option (List (String × Nat))
  preserved_old_api_keys : Option (List String)
  preserved_vertex_old_api_keys : Option (List String)
  preserved_next_key : Option String
  preserved_vertex_next_key : Option String

/-- Module load state: everything `None`. -/
def empty_singleton_state : SingletonState :=
  { inst := none
    preserved_failure_counts := none
    preserved_vertex_failure_counts := none
    preserved_old_api_keys := none
    preserved_vertex_old_api_keys := none
    preserved_next_key := none
    preserved_vertex_next_key := none }

/-- `reset_key_manager_instance()`: snapshot the failure counts (as the
dict's items, in pool order), the old pools, and the next-key hints (the
key the cursor was about to yield, obtained via `get_next_key`), then drop
the instance.  Without an instance it is a no-op. -/
def reset_key_manager_instance (s : SingletonState) : SingletonState :=
  match s.inst with
  | none => s
  | some km =>
    { inst := none
      preserved_failure_counts :=
        some (km.api_keys.map (fun k => (k, km.key_failure_counts k)))
      preserved_vertex_failure_counts :=
        some (km.vertex_api_keys.map (fun k => (k, km.vertex_key_failure_counts k)))
      preserved_old_api_keys := some km.api_keys
      preserved_vertex_old_api_keys := some km.vertex_api_keys
      preserved_next_key :=
        if km.api_keys.isEmpty then none else some (get_next_key km).1
      preserved_vertex_next_key :=
        if km.vertex_api_keys.isEmpty then none else some (get_next_vertex_key km).1 }

/-- Restoration of preserved failure counts into a fresh instance:
start from `{key: 0 for key in new_keys}` and overlay each preserved
binding whose key is present in the new pool. -/
def restore_counts (new_keys : List String) (preserved : List (String × Nat)) :
    String → Nat :=
  preserved.foldl
    (fun f kc =>
      if kc.1 ∈ new_keys then (fun k => if k = kc.1 then kc.2 else f k) else f)
    (fun _ => 0)

/-- The cursor-adjustment scan of `get_key_manager_instance`: locate the
preserved next key in the old pool (`.index`, `ValueError` modelled as
`none`), then walk the old pool from there (wrapping) and return the first
key that is also in the new pool. -/
def determine_start_key (old_keys : List String) (next_key : String)
    (new_keys : List String) : Option String :=
  match old_keys.findIdx? (fun y => y == next_key) with
  | none => none
  | some start_idx =>
    (List.range old_keys.length).findSome? (fun i =>
      let candidate := old_keys.getD ((start_idx + i) % old_keys.length) ""
      if candidate ∈ new_keys then some candidate else none)

/-- `get_key_manager_instance(api_keys, vertex_api_keys)`.  With a live
instance the arguments are ignored; otherwise missing arguments raise
(`none`), else a fresh `KeyManager` is built, preserved failure counts are
restored for surviving keys, and the rotation cursors are positioned on
the preserved next key or its nearest surviving successor in the old
order.  All preserved state is cleared. -/
def get_key_manager_instance (s : SingletonState) (st : Settings)
    (api_keys vertex_api_keys : Option (List String)) :
    Option (KeyManager × SingletonState) :=
  match s.inst with
  | some km => some (km, s)
  | none =>
    match api_keys, vertex_api_keys with
    | some aks, some vks =>
      let km0 := mkKeyManager st aks vks
      let km1 :=
        match s.preserved_failure_counts with
        | some pf =>
          if pf.isEmpty then km0
          else { km0 with key_failure_counts := restore_counts aks pf }
        | none => km0
      let km2 :=
        match s.preserved_vertex_failure_counts with
        | some pvf =>
          if pvf.isEmpty then km1
          else { km1 with vertex_key_failure_counts := restore_counts vks pvf }
        | none => km1
      let start_key : Option String :=
        match s.preserved_old_api_keys, s.preserved_next_key with
        | some old, some nk =>
          if !old.isEmpty && decide (nk ≠ "") && !aks.isEmpty then
            determine_start_key old nk aks
          else none
        | _, _ => none
      let km3 :=
        match start_key with
        | some sk =>
          if decide (sk ≠ "") && !aks.isEmpty then
            match aks.findIdx? (fun y => y == sk) with
            | some target_idx => { km2 with current_key_index := target_idx }
            | none => km2
          else km2
        | none => km2
      let vertex_start_key : Option String :=
        match s.preserved_vertex_old_api_keys, s.preserved_vertex_next_key with
        | some old, some nk =>
          if !old.isEmpty && decide (nk ≠ "") && !vks.isEmpty then
            determine_start_key old nk vks
          else none
        | _, _ => none
      let km4 :=
        match vertex_start_key with
        | some sk =>
          if decide (sk ≠ "") && !vks.isEmpty then
            match vks.findIdx? (fun y => y == sk) with
            | some target_idx => { km3 with current_vertex_key_index := target_idx }
            | none => km3
          else km3
        | none => km3
      some (km4,
        { inst := some km4
          preserved_failure_counts := none
          preserved_vertex_failure_counts := none
          preserved_old_api_keys := none
          preserved_vertex_old_api_keys := none
          preserved_next_key := none
          preserved_vertex_next_key := none })
    | _, _ => none

/-- Scheduler pass condition of the rotating scan, as a predicate on a
state: the key is not disabled and its cleaned window count is strictly
below the model's limit. -/
def key_passes (m : KeyManager) (key model : String) (now : ℤ) : Prop :=
  m.key_failure_counts key < m.MAX_FAILURES ∧
  (clean_old_requests m.rpm_window_seconds now (m.key_request_times key model)).length
    < get_rpm_limit_for_model m model

/-- The state after `_get_rpm_count` has cleaned one (key, model) window. -/
def cleaned_at (m : KeyManager) (key model : String) (now : ℤ) : KeyManager :=
  (get_rpm_count m key model false now).2

/-- `i` successive `choose(model)` calls at clock value `now`, collecting
the returned keys. -/
def choose_seq (model : String) (now : ℤ) : Nat → KeyManager → List String × KeyManager
  | 0, m => ([], m)
  | i + 1, m =>
    let p := get_next_working_key_with_rpm m model now
    let q := choose_seq model now i p.2
    (p.1 :: q.1, q.2)

/-- `l` calls to `_record_request(key, model)` at clock value `t`. -/
def record_n_times (m : KeyManager) (key model : String) (t : ℤ) : Nat → KeyManager
  | 0 => m
  | l + 1 => record_request (record_n_times m key model t l) key model false t

/-- Settings used by the concrete witness instances below. -/
def witS : Settings :=
  { MAX_FAILURES := 3, MAX_RETRIES := 5, PAID_KEY := "",
    RPM_LIMITS := [], RPM_WINDOW_SECONDS := 60, RPM_PREFER_CACHE := true }

/-- Two healthy fresh keys, cache affinity enabled (the default). -/
def cex1 : KeyManager := mkKeyManager witS ["a", "b"] []

/-- Two healthy fresh keys, cache affinity disabled. -/
def wit1 : KeyManager :=
  mkKeyManager { witS with RPM_PREFER_CACHE := false } ["a", "b"] []

/-- Pool `["a", "b"]` with `"b"` disabled (3 failures) and the cursor one
past `"a"`, which is the cached key. -/
def cex2 : KeyManager :=
  { mkKeyManager witS ["a", "b"] [] with
      key_failure_counts := fun k => if k = "b" then 3 else 0
      current_key_index := 1
      current_key := some "a" }

/-- Pool `["a", "b"]`, all healthy, cursor one past `"a"` (the cached
key that is about to fail). -/
def wit2 : KeyManager :=
  { mkKeyManager witS ["a", "b"] [] with
      current_key_index := 1
      current_key := some "a" }

/-- Pool `["a", "b"]` with `"a"` cached. -/
def wit3 : KeyManager :=
  { mkKeyManager witS ["a", "b"] [] with current_key := some "a" }

/-- Single-entry limit map used by the C5 witness. -/
def wit5 : KeyManager :=
  { mkKeyManager witS ["a"] [] with rpm_limits := [("g-pro", 5)] }

/-- Mixed failure counts for the classify witness. -/
def wit9 : KeyManager :=
  { mkKeyManager witS ["a", "b"] [] with
      key_failure_counts := fun k => if k = "b" then 3 else 1 }

/-- Primary and auxiliary pools for the termination witness. -/
def wit10 : KeyManager := mkKeyManager witS ["a", "b"] ["v", "w"]

/-- Old manager of the reconfigure scenario: pool `[a, b, c]`, cursor at
`b`, counters `a=1, b=0, c=2`. -/
def wit4om : KeyManager :=
  { mkKeyManager witS ["a", "b", "c"] [] with
      current_key_index := 1
      key_failure_counts := fun k => if k = "c" then 2 else if k = "a" then 1 else 0 }

/-- Module state holding `wit4om` as the live singleton. -/
def wit4s0 : SingletonState :=
  { empty_singleton_state with inst := some wit4om }


/-- The pool key `j` rotation steps after the cursor of `m0`. -/
def rot_key (m0 : KeyManager) (j : Nat) : String :=
  m0.api_keys.getD ((m0.current_key_index + j) % m0.api_keys.length) ""

/-- Invariant tying the state after `j` healthy round-robin `choose`
calls (all at clock `now`, each selecting the cursor key) back to the
starting state `m0`: static fields unchanged, cursor advanced `j` steps,
and exactly the `j` chosen keys carry a one-entry window for `model`. -/
def state_inv (m0 : KeyManager) (model : String) (now : ℤ) (j : Nat)
    (m : KeyManager) : Prop :=
  m.api_keys = m0.api_keys ∧
  m.rpm_prefer_cache = m0.rpm_prefer_cache ∧
  m.key_failure_counts = m0.key_failure_counts ∧
  m.MAX_FAILURES = m0.MAX_FAILURES ∧
  m.rpm_limits = m0.rpm_limits ∧
  m.rpm_window_seconds = m0.rpm_window_seconds ∧
  m.current_key_index = (m0.current_key_index + j) % m0.api_keys.length ∧
  (∀ k mo, m.key_request_times k mo =
    if mo = model ∧ k ∈ (List.range j).map (fun t => rot_key m0 t) then [now]
    else m0.key_request_times k mo)

/-! ### Basic lemmas about windows and state updates -/

theorem update_window_same (f : String → String → List ℤ) (k mo : String) (v : List ℤ) :
    update_window f k mo v k mo = v := by
  simp [update_window]

theorem update_window_ne (f : String → String → List ℤ) (k mo k2 m2 : String) (v : List ℤ)
    (h : ¬(k2 = k ∧ m2 = mo)) : update_window f k mo v k2 m2 = f k2 m2 := by
  simp only [update_window, if_neg h]

theorem update_window_override (f : String → String → List ℤ) (k mo : String) (v v' : List ℤ) :
    update_window (update_window f k mo v) k mo v' = update_window f k mo v' := by
  funext a b
  by_cases h : a = k ∧ b = mo
  · simp [update_window, h]
  · simp [update_window, h]

theorem dropWhile_self_eq {α : Type} (p : α → Bool) :
    ∀ l : List α, (l.dropWhile p).dropWhile p = l.dropWhile p := by
  intro l
  induction l with
  | nil => rfl
  | cons a t ih =>
    rw [List.dropWhile_cons]
    by_cases h : p a
    · rw [if_pos h, ih]
    · rw [if_neg h, List.dropWhile_cons, if_neg h]

theorem clean_old_requests_idem (w now : ℤ) (l : List ℤ) :
    clean_old_requests w now (clean_old_requests w now l) = clean_old_requests w now l :=
  dropWhile_self_eq _ l

theorem clean_old_requests_nil (w now : ℤ) : clean_old_requests w now [] = [] := rfl

theorem clean_old_requests_all_old (w now : ℤ) (l : List ℤ)
    (h : ∀ t ∈ l, t < now - w) : clean_old_requests w now l = [] := by
  induction l with
  | nil => rfl
  | cons a t ih =>
    rw [clean_old_requests, List.dropWhile_cons, if_pos (by simpa using h a (List.mem_cons_self a t))]
    exact ih (fun x hx => h x (List.mem_cons_of_mem a hx))

theorem clean_old_requests_of_fresh (w now : ℤ) (l : List ℤ)
    (h : ∀ t ∈ l, now - w ≤ t) : clean_old_requests w now l = l := by
  cases l with
  | nil => rfl
  | cons a t =>
    rw [clean_old_requests, List.dropWhile_cons,
        if_neg (by simpa using Int.not_lt.mpr (h a (List.mem_cons_self a t)))]

theorem cleaned_at_eq (m : KeyManager) (k mo : String) (now : ℤ) :
    cleaned_at m k mo now =
      { m with
          key_request_times := update_window m.key_request_times k mo
            (clean_old_requests m.rpm_window_seconds now (m.key_request_times k mo)) } := rfl

theorem get_rpm_count_fst (m : KeyManager) (k mo : String) (now : ℤ) :
    (get_rpm_count m k mo false now).1 =
      (clean_old_requests m.rpm_window_seconds now (m.key_request_times k mo)).length := rfl

theorem record_request_eq (m : KeyManager) (k mo : String) (now : ℤ) :
    record_request m k mo false now =
      { m with
          key_request_times := update_window m.key_request_times k mo
            (m.key_request_times k mo ++ [now])
          record_log := m.record_log ++ [(k, mo)] } := rfl

theorem get_rpm_limit_congr {m1 m2 : KeyManager} (model : String)
    (h : m1.rpm_limits = m2.rpm_limits) :
    get_rpm_limit_for_model m1 model = get_rpm_limit_for_model m2 model := by
  simp only [get_rpm_limit_for_model, h]

theorem get_rpm_limit_eq_of (m : KeyManager) (model : String) :
    get_rpm_limit_for_model m model = rpm_limit_of m.rpm_limits model := rfl

/-! ### Minimum over the configured limit values -/

theorem foldl_min_mem (xs : List Nat) : ∀ x : Nat, xs.foldl min x ∈ x :: xs := by
  induction xs with
  | nil => intro x; simp
  | cons y ys ih =>
    intro x
    rw [List.foldl_cons]
    rcases List.mem_cons.mp (ih (min x y)) with h1 | h1
    · rcases Nat.le_total x y with hle | hle
      · rw [h1, Nat.min_eq_left hle]; exact List.mem_cons_self _ _
      · rw [h1, Nat.min_eq_right hle]
        exact List.mem_cons_of_mem _ (List.mem_cons_self _ _)
    · exact List.mem_cons_of_mem _ (List.mem_cons_of_mem _ h1)

theorem foldl_min_le (xs : List Nat) : ∀ x v : Nat, v ∈ x :: xs → xs.foldl min x ≤ v := by
  induction xs with
  | nil =>
    intro x v hv
    rw [List.mem_singleton] at hv
    simp [hv]
  | cons y ys ih =>
    intro x v hv
    rw [List.foldl_cons]
    rcases List.mem_cons.mp hv with h1 | h1
    · rw [h1]
      exact Nat.le_trans (ih (min x y) (min x y) (List.mem_cons_self _ _)) (Nat.min_le_left x y)
    · rcases List.mem_cons.mp h1 with h2 | h2
      · rw [h2]
        exact Nat.le_trans (ih (min x y) (min x y) (List.mem_cons_self _ _)) (Nat.min_le_right x y)
      · exact ih (min x y) v (List.mem_cons_of_mem _ h2)

/-- **C5**: `_get_rpm_limit_for_model` returns the mapped value on an exact
key match; otherwise the value of the first entry fuzzy-matched on the
substring tokens `lite` / `flash` (not for models containing `lite`) /
`pro`; otherwise the minimum value in the map; and 10 when the map is
empty.  The result is positive whenever all configured limits are. -/
theorem C5_limit_for_model (m : KeyManager) (model : String) :
    (∀ v, assoc_lookup m.rpm_limits model = some v → get_rpm_limit_for_model m model = v)
    ∧ (assoc_lookup m.rpm_limits model = none →
        ∀ p, m.rpm_limits.find? (fun q => fuzzy_entry_matches q.1 (to_lower model)) = some p →
          get_rpm_limit_for_model m model = p.2)
    ∧ (assoc_lookup m.rpm_limits model = none →
        m.rpm_limits.find? (fun q => fuzzy_entry_matches q.1 (to_lower model)) = none →
        m.rpm_limits ≠ [] →
          get_rpm_limit_for_model m model ∈ m.rpm_limits.map (fun q => q.2)
          ∧ ∀ v ∈ m.rpm_limits.map (fun q => q.2), get_rpm_limit_for_model m model ≤ v)
    ∧ (m.rpm_limits = [] → get_rpm_limit_for_model m model = 10)
    ∧ ((∀ q ∈ m.rpm_limits, 0 < q.2) → 0 < get_rpm_limit_for_model m model) := by
  refine ⟨?_, ?_, ?_, ?_, ?_⟩
  · intro v hv
    simp [get_rpm_limit_for_model, rpm_limit_of, hv]
  · intro h0 p hp
    simp [get_rpm_limit_for_model, rpm_limit_of, h0, hp]
  · intro h0 hf hne
    have hmin : get_rpm_limit_for_model m model
        = nat_list_min (m.rpm_limits.map (fun q => q.2)) := by
      simp [get_rpm_limit_for_model, rpm_limit_of, h0, hf]
    rcases hmap : m.rpm_limits.map (fun q => q.2) with _ | ⟨x, xs⟩
    · exact absurd (List.map_eq_nil_iff.mp hmap) hne
    · rw [hmin, hmap]
      exact ⟨foldl_min_mem xs x, fun v hv => foldl_min_le xs x v hv⟩
  · intro h
    simp [get_rpm_limit_for_model, rpm_limit_of, h, assoc_lookup, nat_list_min]
  · intro hpos
    rcases hcl : assoc_lookup m.rpm_limits model with _ | v
    · rcases hcf : m.rpm_limits.find? (fun q => fuzzy_entry_matches q.1 (to_lower model)) with _ | p
      · rcases hmap : m.rpm_limits.map (fun q => q.2) with _ | ⟨x, xs⟩
        · have : m.rpm_limits = [] := List.map_eq_nil_iff.mp hmap
          simp [get_rpm_limit_for_model, rpm_limit_of, this, assoc_lookup, nat_list_min]
        · have hres : get_rpm_limit_for_model m model
              = nat_list_min (m.rpm_limits.map (fun q => q.2)) := by
            simp [get_rpm_limit_for_model, rpm_limit_of, hcl, hcf]
          rw [hres, hmap]
          have hmem : (xs.foldl min x) ∈ x :: xs := foldl_min_mem xs x
          rw [← hmap] at hmem
          rcases List.mem_map.mp hmem with ⟨q, hq, hqv⟩
          have hq2 := hpos q hq
          rw [hqv] at hq2
          simpa [nat_list_min] using hq2
      · have hres : get_rpm_limit_for_model m model = p.2 := by
          simp [get_rpm_limit_for_model, rpm_limit_of, hcl, hcf]
        rw [hres]
        exact hpos p (List.mem_of_find?_eq_some hcf)
    · have hres : get_rpm_limit_for_model m model = v := by
        simp [get_rpm_limit_for_model, rpm_limit_of, hcl]
      rcases Option.map_eq_some'.mp hcl with ⟨q, hq, hqv⟩
      rw [hres, ← hqv]
      exact hpos q (List.mem_of_find?_eq_some hq)

/-- Witness for C5: `x-pro-1` is not an exact key of `[("g-pro", 5)]` but
fuzzy-matches the `pro` token, so the limit is 5. -/
theorem C5_witness :
    assoc_lookup wit5.rpm_limits "x-pro-1" = none ∧
    get_rpm_limit_for_model wit5 "x-pro-1" = 5 :=
  ⟨rfl, (C5_limit_for_model wit5 "x-pro-1").2.1 rfl ("g-pro", 5) rfl⟩

/-! ### Window expiry (C7) and tracker totality (C8) -/

theorem record_n_times_window (m : KeyManager) (key model : String) (t : ℤ) :
    ∀ l : Nat,
      (record_n_times m key model t l).key_request_times key model
        = m.key_request_times key model ++ List.replicate l t := by
  intro l
  induction l with
  | zero => simp [record_n_times]
  | succ l ih =>
    rw [record_n_times, record_request_eq]
    simp only [update_window_same, ih]
    rw [List.replicate_succ' l t, List.append_assoc]

theorem record_n_times_rpm_window (m : KeyManager) (key model : String) (t : ℤ) :
    ∀ l : Nat, (record_n_times m key model t l).rpm_window_seconds = m.rpm_window_seconds := by
  intro l
  induction l with
  | zero => rfl
  | succ l ih => rw [record_n_times, record_request_eq]; exact ih

/-- **C7**: `_get_rpm_count` drops from the head of the (key, model)
window every timestamp strictly older than `now - W` and returns the
remaining length; consequently after `L` requests recorded at `t = 0` a
count taken at any `now > W` is 0. -/
theorem C7_window_expiry (m : KeyManager) (key model : String) (L : Nat) (now : ℤ)
    (hwin : m.key_request_times key model = [])
    (hnow : m.rpm_window_seconds < now) :
    (∀ (m2 : KeyManager) (k mo : String) (t : ℤ),
        (get_rpm_count m2 k mo false t).1 =
          ((m2.key_request_times k mo).dropWhile
            (fun x => decide (x < t - m2.rpm_window_seconds))).length)
    ∧ (get_rpm_count (record_n_times m key model 0 L) key model false now).1 = 0 := by
  constructor
  · intro m2 k mo t
    rfl
  · rw [get_rpm_count_fst, record_n_times_window, record_n_times_rpm_window, hwin,
        List.nil_append]
    rw [clean_old_requests_all_old]
    · rfl
    · intro x hx
      rw [List.eq_of_mem_replicate hx]
      omega

/-- Witness for C7: three requests at `t = 0` on a fresh key, window 60,
count at `t = 61` is 0. -/
theorem C7_witness :
    (mkKeyManager witS ["k"] []).rpm_window_seconds < 61 ∧
    (get_rpm_count (record_n_times (mkKeyManager witS ["k"] []) "k" "m" 0 3)
        "k" "m" false 61).1 = 0 :=
  ⟨by decide, (C7_window_expiry (mkKeyManager witS ["k"] []) "k" "m" 3 61 rfl (by decide)).2⟩

/-- **C8 counterexample**: the claim says `_get_rpm_count` never fails,
even for a key the tracker has never seen.  But `self.key_request_times`
is a plain dict keyed by the pool, so a key outside the pool raises
`KeyError` (modelled as `none`) although it has no recorded requests. -/
theorem C8_counterexample :
    cex1.key_request_times "zz" "mm" = []
    ∧ ("zz" ∉ cex1.api_keys)
    ∧ get_rpm_count_checked cex1 "zz" "mm" 0 = none :=
  ⟨rfl, by decide, rfl⟩

/-- **C8 (amended)**: for every key in the pool, a (key, model) pair with
no recorded requests yields count 0 and no error; a key outside the pool
raises `KeyError`. -/
theorem C8_amended (m : KeyManager) (key model : String) (now : ℤ)
    (hmem : key ∈ m.api_keys) (hwin : m.key_request_times key model = []) :
    (get_rpm_count_checked m key model now).map (fun p => p.1) = some 0 := by
  rw [get_rpm_count_checked, if_pos hmem, Option.map_some', get_rpm_count_fst, hwin]
  rfl

/-- Witness for C8: a pool key with an empty window counts 0. -/
theorem C8_witness :
    ("a" ∈ cex1.api_keys)
    ∧ (get_rpm_count_checked cex1 "a" "mm" 0).map (fun p => p.1) = some 0 :=
  ⟨by decide, C8_amended cex1 "a" "mm" 0 (by decide) rfl⟩

/-! ### The cache-affinity path of `get_next_working_key_with_rpm` (C3) -/

theorem choose_cache_hit (m : KeyManager) (model : String) (now : ℤ) (ck : String)
    (hpc : m.rpm_prefer_cache = true) (hck : m.current_key = some ck) (hne : ck ≠ "")
    (hvalid : m.key_failure_counts ck < m.MAX_FAILURES)
    (hlim : (clean_old_requests m.rpm_window_seconds now (m.key_request_times ck model)).length
              < get_rpm_limit_for_model m model) :
    get_next_working_key_with_rpm m model now =
      (ck, { m with
              current_model := some model
              key_request_times := update_window m.key_request_times ck model
                (clean_old_requests m.rpm_window_seconds now (m.key_request_times ck model) ++ [now])
              record_log := m.record_log ++ [(ck, model)] }) := by
  rw [get_rpm_limit_eq_of] at hlim
  unfold get_next_working_key_with_rpm
  simp only [hpc, hck, opt_str_truthy, ne_eq, hne, not_false_eq_true, decide_True,
    Bool.and_self, if_true, Option.getD_some, is_key_valid, is_key_within_rpm_limit,
    get_rpm_count, get_rpm_limit_for_model, if_neg, Bool.false_eq_true,
    clean_old_requests_idem, update_window_same, update_window_override,
    record_request_eq, hvalid, decide_eq_true_eq, hlim]

/-- **C3**: with `RPM_PREFER_CACHE=true`, whenever a cached current key
exists, is not disabled, and its cleaned RPM count for the model is
strictly below the limit, `choose` returns the cached key and records
exactly one request for it; the key stays cached, so the next call under
the same conditions returns it again. -/
theorem C3_cache_affinity (m : KeyManager) (model : String) (now now2 : ℤ) (ck : String)
    (hpc : m.rpm_prefer_cache = true) (hck : m.current_key = some ck) (hne : ck ≠ "")
    (hvalid : m.key_failure_counts ck < m.MAX_FAILURES)
    (hlim : (clean_old_requests m.rpm_window_seconds now (m.key_request_times ck model)).length
              < get_rpm_limit_for_model m model) :
    (get_next_working_key_with_rpm m model now).1 = ck
    ∧ (get_next_working_key_with_rpm m model now).2.record_log
        = m.record_log ++ [(ck, model)]
    ∧ (get_next_working_key_with_rpm m model now).2.key_request_times ck model
        = clean_old_requests m.rpm_window_seconds now (m.key_request_times ck model) ++ [now]
    ∧ (get_next_working_key_with_rpm m model now).2.current_key = some ck
    ∧ ((clean_old_requests m.rpm_window_seconds now2
          ((get_next_working_key_with_rpm m model now).2.key_request_times ck model)).length
          < get_rpm_limit_for_model m model →
        (get_next_working_key_with_rpm
            (get_next_working_key_with_rpm m model now).2 model now2).1 = ck) := by
  have h1 := choose_cache_hit m model now ck hpc hck hne hvalid hlim
  rw [h1]
  refine ⟨rfl, rfl, update_window_same _ _ _ _, hck, ?_⟩
  intro hlim2
  have h2 := choose_cache_hit
    ({ m with
        current_model := some model
        key_request_times := update_window m.key_request_times ck model
          (clean_old_requests m.rpm_window_seconds now (m.key_request_times ck model) ++ [now])
        record_log := m.record_log ++ [(ck, model)] })
    model now2 ck hpc hck hne hvalid (by
      rw [get_rpm_limit_eq_of]
      rw [get_rpm_limit_eq_of] at hlim2
      simpa using hlim2)
  rw [h2]

/-- Witness for C3: pool `["a", "b"]` with `"a"` cached and fresh windows;
two consecutive calls both return `"a"`. -/
theorem C3_witness :
    (get_next_working_key_with_rpm wit3 "m" 0).1 = "a"
    ∧ (get_next_working_key_with_rpm
        (get_next_working_key_with_rpm wit3 "m" 0).2 "m" 1).1 = "a" := by
  have h := C3_cache_affinity wit3 "m" 0 1 "a" rfl rfl (by decide) (by decide) (by decide)
  exact ⟨h.1, h.2.2.2.2 (by decide)⟩

/-! ### The rotating scan when the cursor key passes (used by C1 and C4) -/

theorem choose_no_cache_pass (m : KeyManager) (model : String) (now : ℤ)
    (hcache : m.rpm_prefer_cache = false ∨ m.current_key = none)
    (hne : m.api_keys ≠ [])
    (hidx : m.current_key_index < m.api_keys.length)
    (hpass : key_passes m (m.api_keys.getD m.current_key_index "") model now) :
    get_next_working_key_with_rpm m model now =
      (m.api_keys.getD m.current_key_index "",
       { m with
           current_model := some model
           current_key_index := (m.current_key_index + 1) % m.api_keys.length
           current_key := some (m.api_keys.getD m.current_key_index "")
           key_request_times := update_window m.key_request_times
             (m.api_keys.getD m.current_key_index "") model
             (clean_old_requests m.rpm_window_seconds now
               (m.key_request_times (m.api_keys.getD m.current_key_index "") model) ++ [now])
           record_log := m.record_log
             ++ [(m.api_keys.getD m.current_key_index "", model)] }) := by
  obtain ⟨hv, hl⟩ := hpass
  rw [get_rpm_limit_eq_of] at hl
  obtain ⟨n', hn'⟩ : ∃ n', m.api_keys.length = n' + 1 :=
    Nat.exists_eq_succ_of_ne_zero (fun h0 => hne (List.length_eq_zero.mp h0))
  have hmod : m.current_key_index % (n' + 1) = m.current_key_index :=
    Nat.mod_eq_of_lt (hn' ▸ hidx)
  have hcachecond :
      ((({ m with current_model := some model } : KeyManager)).rpm_prefer_cache
        && opt_str_truthy ({ m with current_model := some model } : KeyManager).current_key)
        = false := by
    rcases hcache with h | h
    · simp [h]
    · simp [h, opt_str_truthy]
  unfold get_next_working_key_with_rpm choose_scan_phase
  simp only [hcachecond, Bool.false_eq_true, if_false, List.isEmpty_eq_true, hne, hn', hmod,
    Nat.add_zero, rpm_scan_loop, is_key_valid, is_key_within_rpm_limit,
    get_rpm_count, get_rpm_limit_for_model, clean_old_requests_idem,
    update_window_same, update_window_override, record_request_eq, hv, hl,
    decide_eq_true_eq, if_true, Bool.and_self]

/-! ### Round-robin rotation (C1) -/


theorem rot_key_mem (m0 : KeyManager) (hne : m0.api_keys ≠ []) (t : Nat) :
    rot_key m0 t ∈ m0.api_keys := by
  have hpos : 0 < m0.api_keys.length := List.length_pos.mpr hne
  have hlt : (m0.current_key_index + t) % m0.api_keys.length < m0.api_keys.length :=
    Nat.mod_lt _ hpos
  rw [rot_key, List.getD_eq_getElem?_getD, List.getElem?_eq_getElem hlt]
  exact List.getElem_mem hlt

theorem rot_key_ne (m0 : KeyManager) (hnd : m0.api_keys.Nodup) {t j : Nat}
    (ht : t < j) (hj : j < m0.api_keys.length) :
    rot_key m0 t ≠ rot_key m0 j := by
  have hpos : 0 < m0.api_keys.length := Nat.lt_of_le_of_lt (Nat.zero_le j) hj
  have hlt_t : (m0.current_key_index + t) % m0.api_keys.length < m0.api_keys.length :=
    Nat.mod_lt _ hpos
  have hlt_j : (m0.current_key_index + j) % m0.api_keys.length < m0.api_keys.length :=
    Nat.mod_lt _ hpos
  intro heq
  rw [rot_key, rot_key, List.getD_eq_getElem?_getD, List.getD_eq_getElem?_getD,
      List.getElem?_eq_getElem hlt_t, List.getElem?_eq_getElem hlt_j] at heq
  have hidx : (m0.current_key_index + t) % m0.api_keys.length
      = (m0.current_key_index + j) % m0.api_keys.length :=
    (List.Nodup.getElem_inj_iff hnd).mp heq
  have hmodeq : t ≡ j [MOD m0.api_keys.length] :=
    Nat.ModEq.add_left_cancel' m0.current_key_index hidx
  have : t = j := by
    have h1 : t % m0.api_keys.length = t := Nat.mod_eq_of_lt (Nat.lt_trans ht hj)
    have h2 : j % m0.api_keys.length = j := Nat.mod_eq_of_lt hj
    have := hmodeq
    rw [Nat.ModEq, h1, h2] at this
    exact this
  omega

theorem choose_seq_rotation (model : String) (now : ℤ) (m0 : KeyManager)
    (hpc : m0.rpm_prefer_cache = false)
    (hnd : m0.api_keys.Nodup)
    (hvalid : ∀ k ∈ m0.api_keys, m0.key_failure_counts k < m0.MAX_FAILURES)
    (hwin : ∀ k ∈ m0.api_keys, m0.key_request_times k model = [])
    (hL : 1 ≤ rpm_limit_of m0.rpm_limits model) :
    ∀ (i j : Nat), j + i ≤ m0.api_keys.length → ∀ m : KeyManager,
      state_inv m0 model now j m →
      (choose_seq model now i m).1
          = (List.range i).map (fun t => rot_key m0 (j + t))
      ∧ state_inv m0 model now (j + i) (choose_seq model now i m).2 := by
  intro i
  induction i with
  | zero =>
    intro j _ m hinv
    exact ⟨by simp [choose_seq], by simpa using hinv⟩
  | succ i ih =>
    intro j hji m hinv
    obtain ⟨hak, hppc, hfc, hMF, hrl, hws, hcki, hkrt⟩ := hinv
    have hne : m0.api_keys ≠ [] := by
      intro h
      rw [h] at hji
      simp at hji
    have hpos : 0 < m0.api_keys.length := List.length_pos.mpr hne
    have hj : j < m0.api_keys.length := by omega
    -- the key the cursor points at
    have hkey : m.api_keys.getD m.current_key_index "" = rot_key m0 j := by
      rw [hak, hcki, rot_key]
    have hkey_mem : rot_key m0 j ∈ m0.api_keys := rot_key_mem m0 hne j
    have hkey_fresh : rot_key m0 j ∉ (List.range j).map (fun t => rot_key m0 t) := by
      intro hmem
      rcases List.mem_map.mp hmem with ⟨t, htr, hte⟩
      exact rot_key_ne m0 hnd (List.mem_range.mp htr) hj hte
    have hwinkey : m.key_request_times (rot_key m0 j) model = [] := by
      rw [hkrt]
      rw [if_neg (by simp [hkey_fresh])]
      exact hwin _ hkey_mem
    have hpass : key_passes m (m.api_keys.getD m.current_key_index "") model now := by
      rw [hkey]
      constructor
      · rw [hfc, hMF]
        exact hvalid _ hkey_mem
      · rw [hws, hwinkey, clean_old_requests_nil, get_rpm_limit_eq_of, hrl]
        simpa using hL
    have hstep := choose_no_cache_pass m model now (Or.inl (hppc.trans hpc)) 
      (by rw [hak]; exact hne) (by rw [hak, hcki]; exact Nat.mod_lt _ hpos) hpass
    -- unfold one step of choose_seq
    have hseq : choose_seq model now (i + 1) m =
        ((get_next_working_key_with_rpm m model now).1
          :: (choose_seq model now i (get_next_working_key_with_rpm m model now).2).1,
         (choose_seq model now i (get_next_working_key_with_rpm m model now).2).2) := rfl
    rw [hseq, hstep]
    -- the post-call state satisfies the invariant at j+1
    have hinv' : state_inv m0 model now (j + 1)
        ({ m with
            current_model := some model
            current_key_index := (m.current_key_index + 1) % m.api_keys.length
            current_key := some (m.api_keys.getD m.current_key_index "")
            key_request_times := update_window m.key_request_times
              (m.api_keys.getD m.current_key_index "") model
              (clean_old_requests m.rpm_window_seconds now
                (m.key_request_times (m.api_keys.getD m.current_key_index "") model) ++ [now])
            record_log := m.record_log
              ++ [(m.api_keys.getD m.current_key_index "", model)] }) := by
      refine ⟨hak, hppc, hfc, hMF, hrl, hws, ?_, ?_⟩
      · show (m.current_key_index + 1) % m.api_keys.length
            = (m0.current_key_index + (j + 1)) % m0.api_keys.length
        rw [hak, hcki, Nat.mod_add_mod, Nat.add_assoc]
      · intro k mo
        rw [hkey, hws, hwinkey, clean_old_requests_nil, List.nil_append]
        simp only [update_window]
        have hchosen : (List.range (j + 1)).map (fun t => rot_key m0 t)
            = (List.range j).map (fun t => rot_key m0 t) ++ [rot_key m0 j] := by
          rw [List.range_succ, List.map_append, List.map_singleton]
        by_cases hk : k = rot_key m0 j ∧ mo = model
        · have hcond : mo = model ∧ k ∈ (List.range (j + 1)).map (fun t => rot_key m0 t) := by
            refine ⟨hk.2, ?_⟩
            rw [hchosen, hk.1]
            exact List.mem_append_right _ (List.mem_singleton_self _)
          rw [if_pos hk, if_pos hcond]
        · rw [if_neg hk, hkrt]
          by_cases hmo : mo = model
          · have hkne : k ≠ rot_key m0 j := fun hkk => hk ⟨hkk, hmo⟩
            by_cases hmem : k ∈ (List.range j).map (fun t => rot_key m0 t)
            · have hc1 : mo = model ∧ k ∈ (List.range j).map (fun t => rot_key m0 t) :=
                ⟨hmo, hmem⟩
              have hc2 : mo = model ∧ k ∈ (List.range (j + 1)).map (fun t => rot_key m0 t) := by
                refine ⟨hmo, ?_⟩
                rw [hchosen]
                exact List.mem_append_left _ hmem
              rw [if_pos hc1, if_pos hc2]
            · have hc1 : ¬(mo = model ∧ k ∈ (List.range j).map (fun t => rot_key m0 t)) :=
                fun hc => hmem hc.2
              have hc2 : ¬(mo = model ∧ k ∈ (List.range (j + 1)).map (fun t => rot_key m0 t)) := by
                rintro ⟨h1, h2⟩
                rw [hchosen] at h2
                rcases List.mem_append.mp h2 with h3 | h3
                · exact hmem h3
                · exact hkne (List.mem_singleton.mp h3)
              rw [if_neg hc1, if_neg hc2]
          · have hc1 : ¬(mo = model ∧ k ∈ (List.range j).map (fun t => rot_key m0 t)) :=
              fun hc => hmo hc.1
            have hc2 : ¬(mo = model ∧ k ∈ (List.range (j + 1)).map (fun t => rot_key m0 t)) :=
              fun hc => hmo hc.1
            rw [if_neg hc1, if_neg hc2]
    have hih := ih (j + 1) (by omega) _ hinv'
    refine ⟨?_, ?_⟩
    · dsimp only
      rw [hih.1, hkey]
      rw [List.range_succ_eq_map, List.map_cons, List.map_map]
      have hhead : rot_key m0 (j + 0) = rot_key m0 j := by rw [Nat.add_zero]
      rw [hhead]
      have htail : List.map ((fun t => rot_key m0 (j + t)) ∘ Nat.succ) (List.range i)
          = List.map (fun t => rot_key m0 (j + 1 + t)) (List.range i) := by
        refine List.map_congr_left (fun t _ => ?_)
        have harg : j + Nat.succ t = j + 1 + t := by omega
        simp only [Function.comp_apply]
        rw [harg]
      rw [htail]
    · dsimp only
      have heq : j + (i + 1) = (j + 1) + i := by omega
      rw [heq]
      exact hih.2

theorem choose_seq_add (model : String) (now : ℤ) :
    ∀ (a b : Nat) (m : KeyManager),
      choose_seq model now (a + b) m
        = ((choose_seq model now a m).1
             ++ (choose_seq model now b (choose_seq model now a m).2).1,
           (choose_seq model now b (choose_seq model now a m).2).2) := by
  intro a
  induction a with
  | zero =>
    intro b m
    simp [choose_seq]
  | succ a ih =>
    intro b m
    have h1 : a + 1 + b = (a + b) + 1 := by omega
    rw [h1]
    have e1 : choose_seq model now ((a + b) + 1) m
        = ((get_next_working_key_with_rpm m model now).1
            :: (choose_seq model now (a + b) (get_next_working_key_with_rpm m model now).2).1,
           (choose_seq model now (a + b) (get_next_working_key_with_rpm m model now).2).2) := rfl
    have e2 : choose_seq model now (a + 1) m
        = ((get_next_working_key_with_rpm m model now).1
            :: (choose_seq model now a (get_next_working_key_with_rpm m model now).2).1,
           (choose_seq model now a (get_next_working_key_with_rpm m model now).2).2) := rfl
    rw [e1, e2, ih b (get_next_working_key_with_rpm m model now).2]
    simp

/-- **C1 (amended)**: with `RPM_PREFER_CACHE` disabled, for every pool of
n distinct keys (n >= 1, cursor in range) in which every key is not
disabled, all windows for the model start empty and the model's limit is
at least 2, n successive `choose(M)` calls return each of the n keys
exactly once (a permutation of the pool), and the (n+1)-th call returns
the same key as the 1st. -/
theorem C1_amended (m : KeyManager) (model : String) (now : ℤ)
    (hpc : m.rpm_prefer_cache = false)
    (hnd : m.api_keys.Nodup)
    (hne : m.api_keys ≠ [])
    (hc0 : m.current_key_index < m.api_keys.length)
    (hW : 0 ≤ m.rpm_window_seconds)
    (hvalid : ∀ k ∈ m.api_keys, m.key_failure_counts k < m.MAX_FAILURES)
    (hwin : ∀ k ∈ m.api_keys, m.key_request_times k model = [])
    (hL : 2 ≤ get_rpm_limit_for_model m model) :
    ((choose_seq model now (m.api_keys.length + 1) m).1.take m.api_keys.length).Perm
        m.api_keys
    ∧ (choose_seq model now (m.api_keys.length + 1) m).1.getD m.api_keys.length ""
        = (choose_seq model now (m.api_keys.length + 1) m).1.getD 0 "" := by
  have hpos : 0 < m.api_keys.length := List.length_pos.mpr hne
  have hL1 : 1 ≤ rpm_limit_of m.rpm_limits model := by
    rw [get_rpm_limit_eq_of] at hL
    omega
  have hinv0 : state_inv m model now 0 m := by
    refine ⟨rfl, rfl, rfl, rfl, rfl, rfl, ?_, ?_⟩
    · rw [Nat.add_zero, Nat.mod_eq_of_lt hc0]
    · intro k mo
      simp
  have hmain := choose_seq_rotation model now m hpc hnd hvalid hwin hL1
    m.api_keys.length 0 (by omega) m hinv0
  have hfirst := hmain.1
  obtain ⟨hak, hppc, hfc, hMF, hrl, hws, hcki, hkrt⟩ := hmain.2
  simp only [Nat.zero_add] at hcki hkrt
  -- the state after n calls
  set sn := (choose_seq model now m.api_keys.length m).2 with hsn
  have hcursor : sn.current_key_index = m.current_key_index := by
    rw [hcki, Nat.add_mod_right, Nat.mod_eq_of_lt hc0]
  -- the (n+1)-th call selects the cursor key again
  have hkey0 : sn.api_keys.getD sn.current_key_index "" = rot_key m 0 := by
    rw [hak, hcursor, rot_key, Nat.add_zero, Nat.mod_eq_of_lt hc0]
  have hmem0 : rot_key m 0 ∈ (List.range m.api_keys.length).map (fun t => rot_key m t) :=
    List.mem_map.mpr ⟨0, List.mem_range.mpr hpos, rfl⟩
  have hwin0 : sn.key_request_times (rot_key m 0) model = [now] := by
    rw [hkrt]
    rw [if_pos ⟨rfl, hmem0⟩]
  have hclean0 : clean_old_requests sn.rpm_window_seconds now [now] = [now] := by
    apply clean_old_requests_of_fresh
    intro t ht
    rw [List.mem_singleton.mp ht, hws]
    omega
  have hpass : key_passes sn (sn.api_keys.getD sn.current_key_index "") model now := by
    rw [hkey0]
    constructor
    · rw [hfc, hMF]
      exact hvalid _ (rot_key_mem m hne 0)
    · rw [hwin0, hclean0, get_rpm_limit_eq_of, hrl]
      rw [get_rpm_limit_eq_of] at hL
      simpa using hL
  have hstep := choose_no_cache_pass sn model now (Or.inl (hppc.trans hpc))
    (by rw [hak]; exact hne) (by rw [hak, hcursor]; exact hc0) hpass
  -- decompose the n+1 calls
  have hsplit := choose_seq_add model now m.api_keys.length 1 m
  have hone : (choose_seq model now 1 sn).1 = [(get_next_working_key_with_rpm sn model now).1] := rfl
  have hres : (choose_seq model now (m.api_keys.length + 1) m).1
      = (List.range m.api_keys.length).map (fun t => rot_key m (0 + t))
        ++ [sn.api_keys.getD sn.current_key_index ""] := by
    rw [hsplit]
    dsimp only
    rw [hone, hfirst, hstep]
  have hlen1 : ((List.range m.api_keys.length).map (fun t => rot_key m (0 + t))).length
      = m.api_keys.length := by
    rw [List.length_map, List.length_range]
  -- the first n results are the rotation of the pool starting at the cursor
  have hrot : (List.range m.api_keys.length).map (fun t => rot_key m (0 + t))
      = m.api_keys.rotate m.current_key_index := by
    apply List.ext_getElem
    · rw [hlen1, List.length_rotate]
    · intro i h1 h2
      rw [List.getElem_map, List.getElem_range]
      rw [List.getElem_rotate]
      rw [Nat.zero_add, rot_key, Nat.add_comm m.current_key_index i]
      have hlt : (i + m.current_key_index) % m.api_keys.length < m.api_keys.length :=
        Nat.mod_lt _ hpos
      rw [List.getD_eq_getElem?_getD, List.getElem?_eq_getElem hlt]
      rfl
  constructor
  · rw [hres]
    rw [List.take_left' hlen1]
    rw [hrot]
    exact List.rotate_perm m.api_keys m.current_key_index
  · rw [hres]
    rw [List.getD_append_right _ _ _ _ (le_of_eq hlen1)]
    rw [hlen1, Nat.sub_self]
    rw [List.getD_append _ _ _ _ (by rw [hlen1]; exact hpos)]
    rw [hkey0]
    have : ((List.range m.api_keys.length).map (fun t => rot_key m (0 + t))).getD 0 ""
        = rot_key m 0 := by
      rw [List.getD_eq_getElem?_getD, List.getElem?_map, List.getElem?_range hpos]
      rfl
    rw [this]
    rfl


/-- **C1 counterexample**: with the default `RPM_PREFER_CACHE=true`, a
fresh pool of two healthy keys far under their limit yields `a, a` on the
first two `choose` calls — not each key exactly once, because the first
call caches `"a"` and the cache-affinity path keeps returning it. -/
theorem C1_counterexample :
    cex1.api_keys = ["a", "b"]
    ∧ (∀ k ∈ cex1.api_keys, cex1.key_failure_counts k < cex1.MAX_FAILURES)
    ∧ (∀ k ∈ cex1.api_keys,
        (clean_old_requests cex1.rpm_window_seconds 0 (cex1.key_request_times k "m")).length
          < get_rpm_limit_for_model cex1 "m")
    ∧ (choose_seq "m" 0 2 cex1).1 = ["a", "a"]
    ∧ ¬ (choose_seq "m" 0 2 cex1).1.Perm cex1.api_keys := by
  refine ⟨rfl, by decide, by decide, by decide, by decide⟩

/-- Witness for C1 (amended): two distinct healthy keys with the cache
disabled; three calls return `a, b, a`. -/
theorem C1_witness :
    ((choose_seq "m" 0 (wit1.api_keys.length + 1) wit1).1.take wit1.api_keys.length).Perm
        wit1.api_keys
    ∧ (choose_seq "m" 0 (wit1.api_keys.length + 1) wit1).1.getD wit1.api_keys.length ""
        = (choose_seq "m" 0 (wit1.api_keys.length + 1) wit1).1.getD 0 "" :=
  C1_amended wit1 "m" 0 rfl (by decide) (by decide) (by decide) (by decide)
    (by decide) (by decide) (by decide)

/-! ### Classification and the rotating scan's validity filter (C9) -/

theorem classify_foldl (counts : String → Nat) (MAX : Nat) :
    ∀ (keys : List String) (v i : List (String × Nat)),
      keys.foldl (fun acc key =>
        let fail_count := counts key
        if fail_count < MAX then (acc.1 ++ [(key, fail_count)], acc.2)
        else (acc.1, acc.2 ++ [(key, fail_count)])) (v, i)
      = (v ++ (keys.filter (fun k => decide (counts k < MAX))).map
            (fun k => (k, counts k)),
         i ++ (keys.filter (fun k => !decide (counts k < MAX))).map
            (fun k => (k, counts k))) := by
  intro keys
  induction keys with
  | nil =>
    intro v i
    simp
  | cons k t ih =>
    intro v i
    rw [List.foldl_cons]
    by_cases h : counts k < MAX
    · simp only [if_pos h]
      rw [ih]
      simp [List.filter_cons, h]
    · simp only [if_neg h]
      rw [ih]
      simp [List.filter_cons, h]

theorem get_keys_by_status_eq (m : KeyManager) :
    get_keys_by_status m
      = ((m.api_keys.filter
            (fun k => decide (m.key_failure_counts k < m.MAX_FAILURES))).map
           (fun k => (k, m.key_failure_counts k)),
         (m.api_keys.filter
            (fun k => !decide (m.key_failure_counts k < m.MAX_FAILURES))).map
           (fun k => (k, m.key_failure_counts k))) := by
  have h := classify_foldl m.key_failure_counts m.MAX_FAILURES m.api_keys [] []
  simpa [get_keys_by_status] using h

theorem rpm_scan_loop_valid (model : String) (now : ℤ) (start n : Nat) :
    ∀ (fuel checked : Nat) (m1 : KeyManager) (key : String) (mfin : KeyManager),
      rpm_scan_loop model now start n fuel checked m1 = (some key, mfin) →
      m1.key_failure_counts key < m1.MAX_FAILURES := by
  intro fuel
  induction fuel with
  | zero =>
    intro checked m1 key mfin h
    simp [rpm_scan_loop] at h
  | succ fuel ih =>
    intro checked m1 key mfin h
    simp only [rpm_scan_loop] at h
    split at h
    · rename_i hcond
      rw [Prod.mk.injEq, Option.some.injEq] at h
      rcases (Bool.and_eq_true _ _).mp hcond with ⟨hv, _⟩
      simp only [is_key_valid, get_rpm_count, Bool.false_eq_true, if_neg,
        decide_eq_true_eq] at hv
      rw [← h.1]
      exact hv
    · have := ih (checked + 1) _ key mfin h
      simpa [is_key_within_rpm_limit, get_rpm_count] using this

/-- **C9**: `get_keys_by_status` puts each pool key, paired with its
failure count, in exactly one of `valid_keys` (count < MAX_FAILURES) and
`invalid_keys` (count >= MAX_FAILURES); and the rotating scan of `choose`
never selects a key whose failure count has reached MAX_FAILURES. -/
theorem C9_classify_partition (m : KeyManager) :
    (∀ key ∈ m.api_keys,
       (m.key_failure_counts key < m.MAX_FAILURES →
          (key, m.key_failure_counts key) ∈ (get_keys_by_status m).1
          ∧ ∀ c, (key, c) ∉ (get_keys_by_status m).2)
       ∧ (m.MAX_FAILURES ≤ m.key_failure_counts key →
          (key, m.key_failure_counts key) ∈ (get_keys_by_status m).2
          ∧ ∀ c, (key, c) ∉ (get_keys_by_status m).1))
    ∧ (∀ (model : String) (now : ℤ) (start n fuel checked : Nat)
         (m1 : KeyManager) (key : String) (mfin : KeyManager),
         rpm_scan_loop model now start n fuel checked m1 = (some key, mfin) →
         m1.key_failure_counts key < m1.MAX_FAILURES) := by
  have hmem1 : ∀ k c, (k, c) ∈ (get_keys_by_status m).1 ↔
      k ∈ m.api_keys ∧ c = m.key_failure_counts k
        ∧ m.key_failure_counts k < m.MAX_FAILURES := by
    intro k c
    rw [get_keys_by_status_eq]
    simp only [List.mem_map, List.mem_filter, decide_eq_true_eq, Prod.mk.injEq]
    constructor
    · rintro ⟨x, ⟨hx1, hx2⟩, hx3, hx4⟩
      subst hx3
      exact ⟨hx1, hx4.symm, hx2⟩
    · rintro ⟨h1, h2, h3⟩
      exact ⟨k, ⟨h1, h3⟩, rfl, h2.symm⟩
  have hmem2 : ∀ k c, (k, c) ∈ (get_keys_by_status m).2 ↔
      k ∈ m.api_keys ∧ c = m.key_failure_counts k
        ∧ ¬ m.key_failure_counts k < m.MAX_FAILURES := by
    intro k c
    rw [get_keys_by_status_eq]
    simp only [List.mem_map, List.mem_filter, Bool.not_eq_true', decide_eq_false_iff_not,
      Prod.mk.injEq]
    constructor
    · rintro ⟨x, ⟨hx1, hx2⟩, hx3, hx4⟩
      subst hx3
      exact ⟨hx1, hx4.symm, hx2⟩
    · rintro ⟨h1, h2, h3⟩
      exact ⟨k, ⟨h1, h3⟩, rfl, h2.symm⟩
  constructor
  · intro key hkey
    constructor
    · intro hlt
      refine ⟨(hmem1 key _).mpr ⟨hkey, rfl, hlt⟩, fun c hc => ?_⟩
      have := (hmem2 key c).mp hc
      omega
    · intro hge
      refine ⟨(hmem2 key _).mpr ⟨hkey, rfl, by omega⟩, fun c hc => ?_⟩
      have := (hmem1 key c).mp hc
      omega
  · intro model now start n fuel checked m1 key mfin h
    exact rpm_scan_loop_valid model now start n fuel checked m1 key mfin h

/-- Witness for C9: counts `a=1, b=3` with MAX_FAILURES 3 classify into
`valid={a:1}`, `invalid={b:3}`. -/
theorem C9_witness :
    ("a", 1) ∈ (get_keys_by_status wit9).1
    ∧ ("b", 3) ∈ (get_keys_by_status wit9).2
    ∧ (∀ c, ("b", c) ∉ (get_keys_by_status wit9).1) := by
  have h := (C9_classify_partition wit9).1
  have ha := (h "a" (by decide)).1 (by decide)
  have hb := (h "b" (by decide)).2 (by decide)
  exact ⟨ha.1, hb.1, hb.2⟩

/-! ### Every returning path of `choose` records exactly once (C6) -/

theorem rpm_scan_loop_some_spec (model : String) (now : ℤ) (start n : Nat) :
    ∀ (fuel checked : Nat) (m1 : KeyManager) (key : String) (mfin : KeyManager),
      m1.api_keys.length = n → 0 < n →
      rpm_scan_loop model now start n fuel checked m1 = (some key, mfin) →
      key ∈ m1.api_keys ∧ mfin.record_log = m1.record_log ++ [(key, model)] := by
  intro fuel
  induction fuel with
  | zero =>
    intro checked m1 key mfin _ _ h
    simp [rpm_scan_loop] at h
  | succ fuel ih =>
    intro checked m1 key mfin hn h0 h
    simp only [rpm_scan_loop] at h
    split at h
    · rw [Prod.mk.injEq, Option.some.injEq] at h
      have hmem : m1.api_keys.getD ((start + checked) % n) "" ∈ m1.api_keys := by
        have hlt : (start + checked) % n < m1.api_keys.length := by
          rw [hn]
          exact Nat.mod_lt _ h0
        rw [List.getD_eq_getElem?_getD, List.getElem?_eq_getElem hlt]
        exact List.getElem_mem hlt
      constructor
      · rw [← h.1]
        simpa [is_key_within_rpm_limit, get_rpm_count] using hmem
      · rw [← h.2, ← h.1]
        simp [record_request, is_key_within_rpm_limit, get_rpm_count]
    · have := ih (checked + 1) _ key mfin
        (by simpa [is_key_within_rpm_limit, get_rpm_count] using hn) h0 h
      simpa [is_key_within_rpm_limit, get_rpm_count] using this

theorem rpm_scan_loop_none_spec (model : String) (now : ℤ) (start n : Nat) :
    ∀ (fuel checked : Nat) (m1 : KeyManager) (mfin : KeyManager),
      rpm_scan_loop model now start n fuel checked m1 = (none, mfin) →
      mfin.record_log = m1.record_log ∧ mfin.api_keys = m1.api_keys
      ∧ mfin.current_key_index = m1.current_key_index
      ∧ mfin.current_key = m1.current_key
      ∧ mfin.key_failure_counts = m1.key_failure_counts
      ∧ mfin.MAX_FAILURES = m1.MAX_FAILURES
      ∧ mfin.rpm_limits = m1.rpm_limits
      ∧ mfin.rpm_window_seconds = m1.rpm_window_seconds := by
  intro fuel
  induction fuel with
  | zero =>
    intro checked m1 mfin h
    simp only [rpm_scan_loop, Prod.mk.injEq] at h
    rw [← h.2]
    exact ⟨rfl, rfl, rfl, rfl, rfl, rfl, rfl, rfl⟩
  | succ fuel ih =>
    intro checked m1 mfin h
    simp only [rpm_scan_loop] at h
    split at h
    · rw [Prod.mk.injEq] at h
      exact absurd h.1 (by simp)
    · have := ih (checked + 1) _ mfin h
      simpa [is_key_within_rpm_limit, get_rpm_count] using this

theorem least_used_loop_state (model : String) (now : ℤ) (rpm_limit : Nat) :
    ∀ (keys : List String) (best : Option String) (lowest : Option ℚ) (m1 : KeyManager),
      (least_used_loop model now rpm_limit keys best lowest m1).2.record_log = m1.record_log
      ∧ (least_used_loop model now rpm_limit keys best lowest m1).2.api_keys = m1.api_keys
      ∧ (least_used_loop model now rpm_limit keys best lowest m1).2.current_key_index
          = m1.current_key_index := by
  intro keys
  induction keys with
  | nil =>
    intro best lowest m1
    exact ⟨rfl, rfl, rfl⟩
  | cons k t ih =>
    intro best lowest m1
    rw [least_used_loop]
    dsimp only
    repeat' split
    all_goals
      refine ⟨((ih _ _ _).1).trans ?_, ((ih _ _ _).2.1).trans ?_,
        ((ih _ _ _).2.2).trans ?_⟩ <;> simp [get_rpm_count]

theorem least_used_loop_mem (model : String) (now : ℤ) (rpm_limit : Nat) :
    ∀ (keys : List String) (best : Option String) (lowest : Option ℚ)
      (m1 : KeyManager) (k : String),
      (least_used_loop model now rpm_limit keys best lowest m1).1 = some k →
      k ∈ keys ∨ best = some k := by
  intro keys
  induction keys with
  | nil =>
    intro best lowest m1 k h
    exact Or.inr h
  | cons key t ih =>
    intro best lowest m1 k h
    rw [least_used_loop] at h
    dsimp only at h
    by_cases hv : is_key_valid m1 key = true
    · rw [if_pos hv] at h
      repeat' split at h
      all_goals
        rcases ih _ _ _ _ h with h1 | h1 <;>
          first
          | exact Or.inl (List.mem_cons_of_mem _ h1)
          | exact Or.inr h1
          | (have hkk : key = k := Option.some.inj h1
             rw [← hkk]
             exact Or.inl (List.mem_cons_self _ _))
    · rw [if_neg hv] at h
      rcases ih _ _ _ _ h with h1 | h1
      · exact Or.inl (List.mem_cons_of_mem _ h1)
      · exact Or.inr h1

theorem choose_scan_phase_spec (model : String) (now : ℤ) (m' : KeyManager)
    (hne : m'.api_keys ≠ []) (hidx : m'.current_key_index < m'.api_keys.length) :
    (choose_scan_phase m' model now).1 ∈ m'.api_keys
    ∧ (choose_scan_phase m' model now).2.record_log
        = m'.record_log ++ [((choose_scan_phase m' model now).1, model)] := by
  have hpos : 0 < m'.api_keys.length := List.length_pos.mpr hne
  rw [choose_scan_phase]
  rw [if_neg (by simp [List.isEmpty_iff, hne])]
  dsimp only
  rcases hscan : rpm_scan_loop model now m'.current_key_index m'.api_keys.length
      m'.api_keys.length 0 m' with ⟨os, m2⟩
  cases os with
  | some key =>
    have hs := rpm_scan_loop_some_spec model now m'.current_key_index m'.api_keys.length
      m'.api_keys.length 0 m' key m2 rfl hpos hscan
    exact ⟨hs.1, hs.2⟩
  | none =>
    dsimp only
    have hn := rpm_scan_loop_none_spec model now m'.current_key_index m'.api_keys.length
      m'.api_keys.length 0 m' m2 hscan
    rcases hleast : get_least_used_key m2 model now with ⟨ob, m3⟩
    have hleast' : least_used_loop model now (get_rpm_limit_for_model m2 model)
        m2.api_keys none none m2 = (ob, m3) := hleast
    have hl3 := least_used_loop_state model now (get_rpm_limit_for_model m2 model)
      m2.api_keys none none m2
    rw [hleast'] at hl3
    dsimp only at hl3
    cases ob with
    | some bk =>
      dsimp only
      have hmemb := least_used_loop_mem model now (get_rpm_limit_for_model m2 model)
        m2.api_keys none none m2 bk
      rw [hleast'] at hmemb
      have hbk : bk ∈ m2.api_keys := by
        rcases hmemb rfl with h1 | h1
        · exact h1
        · exact absurd h1 (by simp)
      constructor
      · rw [← hn.2.1]
        exact hbk
      · rw [record_request_eq]
        dsimp only
        rw [hl3.1, hn.1]
    | none =>
      dsimp only
      have hm3 : m3.api_keys = m'.api_keys := by rw [hl3.2.1, hn.2.1]
      have hi3 : m3.current_key_index = m'.current_key_index := by
        rw [hl3.2.2, hn.2.2.1]
      constructor
      · have hlt : m3.current_key_index < m3.api_keys.length := by
          rw [hm3, hi3]
          exact hidx
        rw [← hm3]
        rw [List.getD_eq_getElem?_getD, List.getElem?_eq_getElem hlt]
        exact List.getElem_mem hlt
      · rw [record_request_eq]
        dsimp only
        rw [hl3.1, hn.1]

theorem choose_cache_cond_false (m : KeyManager) (model : String) (now : ℤ)
    (hc : (m.rpm_prefer_cache && opt_str_truthy m.current_key) = false) :
    get_next_working_key_with_rpm m model now
      = choose_scan_phase { m with current_model := some model } model now := by
  have hcachecond :
      ((({ m with current_model := some model } : KeyManager)).rpm_prefer_cache
        && opt_str_truthy ({ m with current_model := some model } : KeyManager).current_key)
        = false := by
    simpa using hc
  unfold get_next_working_key_with_rpm
  simp only [hcachecond, Bool.false_eq_true, if_false]

theorem choose_cache_miss (m : KeyManager) (model : String) (now : ℤ) (ck : String)
    (hpc : m.rpm_prefer_cache = true) (hck : m.current_key = some ck) (hne : ck ≠ "")
    (hfail : ¬(m.key_failure_counts ck < m.MAX_FAILURES ∧
        (clean_old_requests m.rpm_window_seconds now (m.key_request_times ck model)).length
          < get_rpm_limit_for_model m model)) :
    get_next_working_key_with_rpm m model now
      = choose_scan_phase
          { m with
              current_model := some model
              key_request_times := update_window m.key_request_times ck model
                (clean_old_requests m.rpm_window_seconds now (m.key_request_times ck model)) }
          model now := by
  rw [get_rpm_limit_eq_of] at hfail
  unfold get_next_working_key_with_rpm
  simp only [hpc, hck, opt_str_truthy, ne_eq, hne, not_false_eq_true, decide_True,
    Bool.and_self, if_true, Option.getD_some, is_key_valid, is_key_within_rpm_limit,
    get_rpm_count, get_rpm_limit_for_model, Bool.false_eq_true, if_false,
    clean_old_requests_idem, update_window_same, update_window_override]
  rw [if_neg (by
    simp only [Bool.and_eq_true, decide_eq_true_eq]
    exact fun hcond => hfail hcond)]

/-- **C6**: on an empty pool (with no stale cached key) `choose` returns
`""`, raises nothing and records nothing; on a non-empty pool (cursor in
range, cached key if any a pool member) it returns a pool member and
calls `_record_request` exactly once — for the returned key and the given
model — on every returning path (cache-affinity, rotating scan,
least-loaded fallback, forced). -/
theorem C6_choose_total (m : KeyManager) (model : String) (now : ℤ) :
    (m.api_keys = [] → m.current_key = none →
        (get_next_working_key_with_rpm m model now).1 = ""
        ∧ (get_next_working_key_with_rpm m model now).2.record_log = m.record_log)
    ∧ (m.api_keys ≠ [] → m.current_key_index < m.api_keys.length →
        (∀ ck, m.current_key = some ck → ck ∈ m.api_keys) →
        (get_next_working_key_with_rpm m model now).1 ∈ m.api_keys
        ∧ (get_next_working_key_with_rpm m model now).2.record_log
            = m.record_log ++ [((get_next_working_key_with_rpm m model now).1, model)]) := by
  constructor
  · intro hempty hck
    have hc : (m.rpm_prefer_cache && opt_str_truthy m.current_key) = false := by
      rw [hck]
      simp [opt_str_truthy]
    rw [choose_cache_cond_false m model now hc, choose_scan_phase]
    rw [if_pos (by simp [List.isEmpty_iff, hempty])]
    exact ⟨rfl, rfl⟩
  · intro hne hidx hmem
    by_cases hcond : (m.rpm_prefer_cache && opt_str_truthy m.current_key) = true
    · rcases (Bool.and_eq_true _ _).mp hcond with ⟨hpc, htr⟩
      rcases hcur : m.current_key with _ | ck
      · rw [hcur] at htr
        simp [opt_str_truthy] at htr
      · have hckne : ck ≠ "" := by
          rw [hcur] at htr
          simpa [opt_str_truthy] using htr
        by_cases hb : m.key_failure_counts ck < m.MAX_FAILURES ∧
            (clean_old_requests m.rpm_window_seconds now (m.key_request_times ck model)).length
              < get_rpm_limit_for_model m model
        · have h := choose_cache_hit m model now ck hpc hcur hckne hb.1 hb.2
          rw [h]
          exact ⟨hmem ck hcur, rfl⟩
        · have h := choose_cache_miss m model now ck hpc hcur hckne hb
          rw [h]
          exact choose_scan_phase_spec model now _ hne hidx
    · rw [choose_cache_cond_false m model now (Bool.eq_false_iff.mpr hcond)]
      exact choose_scan_phase_spec model now _ hne hidx

/-- Witness for C6: pool `["a", "b"]` with `"a"` cached; the call returns
a pool member and appends exactly one record entry for it. -/
theorem C6_witness :
    (get_next_working_key_with_rpm wit3 "m" 0).1 ∈ wit3.api_keys
    ∧ (get_next_working_key_with_rpm wit3 "m" 0).2.record_log
        = wit3.record_log ++ [((get_next_working_key_with_rpm wit3 "m" 0).1, "m")] :=
  (C6_choose_total wit3 "m" 0).2 (by decide) (by decide)
    (fun ck h => by
      have h2 : some "a" = some ck := h
      rw [← Option.some.inj h2]
      decide)

/-! ### Failure handling avoids the failed key (C2) -/

/-- Passing the health-and-limit test is invariant under the window
cleanup `_get_rpm_count` performs on any (key, model) pair: cleaning is
idempotent, so the cleaned window's length is unchanged. -/
theorem key_passes_cleaned (m1 : KeyManager) (k0 k model : String) (now : ℤ) :
    key_passes (cleaned_at m1 k0 model now) k model now ↔ key_passes m1 k model now := by
  rw [key_passes, key_passes, cleaned_at_eq]
  by_cases hk : k = k0
  · subst hk
    simp [update_window_same, clean_old_requests_idem, get_rpm_limit_eq_of]
  · dsimp only
    rw [update_window_ne _ _ _ _ _ _ (fun hc => hk hc.1)]
    simp [get_rpm_limit_eq_of]

/-- The scan step's Boolean condition (`is_key_valid` and within-limit on
the cleaned state) holds exactly when the key passes in the pre-clean
state. -/
theorem scan_cond_iff (m1 : KeyManager) (key model : String) (now : ℤ) :
    (is_key_valid ((get_rpm_count m1 key model false now).2) key
      && (is_key_within_rpm_limit ((get_rpm_count m1 key model false now).2)
            key model false now).1) = true
    ↔ key_passes m1 key model now := by
  simp [is_key_valid, is_key_within_rpm_limit, get_rpm_count, key_passes,
    get_rpm_limit_for_model, clean_old_requests_idem, update_window_same]

/-- The rotating scan never changes the failure counters. -/
theorem rpm_scan_loop_counts (model : String) (now : ℤ) (start n : Nat) :
    ∀ (fuel checked : Nat) (m1 : KeyManager),
      ((rpm_scan_loop model now start n fuel checked m1).2).key_failure_counts
        = m1.key_failure_counts := by
  intro fuel
  induction fuel with
  | zero =>
    intro checked m1
    rfl
  | succ fuel ih =>
    intro checked m1
    simp only [rpm_scan_loop]
    split
    · simp [record_request, is_key_within_rpm_limit, get_rpm_count]
    · exact (ih (checked + 1) _).trans
        (by simp [is_key_within_rpm_limit, get_rpm_count])

/-- The least-used fallback never changes the failure counters. -/
theorem least_used_loop_counts (model : String) (now : ℤ) (rpm_limit : Nat) :
    ∀ (keys : List String) (best : Option String) (lowest : Option ℚ) (m1 : KeyManager),
      (least_used_loop model now rpm_limit keys best lowest m1).2.key_failure_counts
        = m1.key_failure_counts := by
  intro keys
  induction keys with
  | nil =>
    intro best lowest m1
    rfl
  | cons k t ih =>
    intro best lowest m1
    rw [least_used_loop]
    dsimp only
    repeat' split
    all_goals exact (ih _ _ _).trans (by simp [get_rpm_count])

/-- The whole post-cache phase of `choose` never changes the failure
counters. -/
theorem choose_scan_phase_counts (m' : KeyManager) (model : String) (now : ℤ) :
    (choose_scan_phase m' model now).2.key_failure_counts = m'.key_failure_counts := by
  rw [choose_scan_phase]
  split
  · rfl
  · dsimp only
    rcases hscan : rpm_scan_loop model now m'.current_key_index m'.api_keys.length
        m'.api_keys.length 0 m' with ⟨os, m2⟩
    have hc2 : m2.key_failure_counts = m'.key_failure_counts := by
      have := rpm_scan_loop_counts model now m'.current_key_index m'.api_keys.length
        m'.api_keys.length 0 m'
      rw [hscan] at this
      exact this
    cases os with
    | some key => exact hc2
    | none =>
      dsimp only
      rcases hleast : get_least_used_key m2 model now with ⟨ob, m3⟩
      have hc3 : m3.key_failure_counts = m2.key_failure_counts := by
        have := least_used_loop_counts model now (get_rpm_limit_for_model m2 model)
          m2.api_keys none none m2
        rw [show (least_used_loop model now (get_rpm_limit_for_model m2 model)
            m2.api_keys none none m2) = (ob, m3) from hleast] at this
        exact this
      cases ob with
      | some bk =>
        dsimp only
        rw [record_request_eq]
        dsimp only
        rw [hc3, hc2]
      | none =>
        dsimp only
        rw [record_request_eq]
        dsimp only
        rw [hc3, hc2]

/-- `get_next_working_key_with_rpm` never changes the failure counters on
any path. -/
theorem choose_preserves_counts (m : KeyManager) (model : String) (now : ℤ) :
    (get_next_working_key_with_rpm m model now).2.key_failure_counts
      = m.key_failure_counts := by
  by_cases hcond : (m.rpm_prefer_cache && opt_str_truthy m.current_key) = true
  · rcases (Bool.and_eq_true _ _).mp hcond with ⟨hpc, htr⟩
    rcases hcur : m.current_key with _ | ck
    · rw [hcur] at htr
      simp [opt_str_truthy] at htr
    · have hckne : ck ≠ "" := by
        rw [hcur] at htr
        simpa [opt_str_truthy] using htr
      by_cases hb : m.key_failure_counts ck < m.MAX_FAILURES ∧
          (clean_old_requests m.rpm_window_seconds now (m.key_request_times ck model)).length
            < get_rpm_limit_for_model m model
      · rw [choose_cache_hit m model now ck hpc hcur hckne hb.1 hb.2]
      · rw [choose_cache_miss m model now ck hpc hcur hckne hb]
        exact choose_scan_phase_counts _ model now
  · rw [choose_cache_cond_false m model now (Bool.eq_false_iff.mpr hcond)]
    exact choose_scan_phase_counts _ model now

/-- In a duplicate-free pool, distinct indices hold distinct keys. -/
theorem getD_ne_of_index_ne (l : List String) (hnd : l.Nodup) {i j : Nat}
    (hi : i < l.length) (hj : j < l.length) (hij : i ≠ j) :
    l.getD i "" ≠ l.getD j "" := by
  rw [List.getD_eq_getElem?_getD, List.getD_eq_getElem?_getD,
      List.getElem?_eq_getElem hi, List.getElem?_eq_getElem hj]
  intro heq
  exact hij ((List.Nodup.getElem_inj_iff hnd).mp heq)

/-- Cleaning a window does not touch the pool. -/
theorem cleaned_at_api_keys (m : KeyManager) (k mo : String) (now : ℤ) :
    (cleaned_at m k mo now).api_keys = m.api_keys := by
  rw [cleaned_at_eq]

/-- If the failed key sits at index `ia` and the scan starts right after
it (the cursor position `choose` leaves behind), then as long as some
other slot strictly before the wrap-around offset `n - 1` passes, the
scan returns a key different from the failed one: the failed key is
visited last. -/
theorem rpm_scan_loop_avoids (model : String) (now : ℤ) (start n : Nat)
    (a : String) (ia : Nat) :
    ∀ (fuel checked : Nat) (m1 : KeyManager),
      m1.api_keys.length = n →
      m1.api_keys.Nodup →
      ia < n →
      m1.api_keys.getD ia "" = a →
      start = (ia + 1) % n →
      fuel + checked = n →
      (∃ j, checked ≤ j ∧ j + 1 < n ∧
        key_passes m1 (m1.api_keys.getD ((start + j) % n) "") model now) →
      ∃ k m2, rpm_scan_loop model now start n fuel checked m1 = (some k, m2) ∧ k ≠ a := by
  intro fuel
  induction fuel with
  | zero =>
    intro checked m1 hlen hnodup hia hga hstart hsum hex
    rcases hex with ⟨j, hcj, hjn, _⟩
    omega
  | succ fuel ih =>
    intro checked m1 hlen hnodup hia hga hstart hsum hex
    have hnpos : 0 < n := Nat.lt_of_le_of_lt (Nat.zero_le ia) hia
    have hck_lt : checked + 1 < n := by
      rcases hex with ⟨j, hcj, hjn, _⟩
      omega
    by_cases hpass :
        key_passes m1 (m1.api_keys.getD ((start + checked) % n) "") model now
    · have hkey_ne_idx : (start + checked) % n ≠ ia := by
        rw [hstart, Nat.mod_add_mod]
        intro heq
        have hq := Nat.div_add_mod (ia + 1 + checked) n
        rw [heq] at hq
        rcases Nat.eq_zero_or_pos ((ia + 1 + checked) / n) with hq0 | hq0
        · rw [hq0, Nat.mul_zero] at hq
          omega
        · have hle : n ≤ n * ((ia + 1 + checked) / n) := Nat.le_mul_of_pos_right n hq0
          omega
      have hkne : m1.api_keys.getD ((start + checked) % n) "" ≠ a := by
        have hi1 : (start + checked) % n < m1.api_keys.length := by
          rw [hlen]
          exact Nat.mod_lt _ hnpos
        have hia' : ia < m1.api_keys.length := by rw [hlen]; exact hia
        have := getD_ne_of_index_ne m1.api_keys hnodup hi1 hia' hkey_ne_idx
        rw [hga] at this
        exact this
      have hcond : (is_key_valid
            ((get_rpm_count m1 (m1.api_keys.getD ((start + checked) % n) "") model false now).2)
            (m1.api_keys.getD ((start + checked) % n) "")
          && (is_key_within_rpm_limit
            ((get_rpm_count m1 (m1.api_keys.getD ((start + checked) % n) "") model false now).2)
            (m1.api_keys.getD ((start + checked) % n) "") model false now).1) = true :=
        (scan_cond_iff m1 _ model now).mpr hpass
      have heq : (rpm_scan_loop model now start n (fuel + 1) checked m1).1
          = some (m1.api_keys.getD ((start + checked) % n) "") := by
        simp only [rpm_scan_loop]
        rw [if_pos hcond]
      exact ⟨m1.api_keys.getD ((start + checked) % n) "",
        (rpm_scan_loop model now start n (fuel + 1) checked m1).2,
        by rw [← heq], hkne⟩
    · have hcondf : ¬((is_key_valid
            ((get_rpm_count m1 (m1.api_keys.getD ((start + checked) % n) "") model false now).2)
            (m1.api_keys.getD ((start + checked) % n) "")
          && (is_key_within_rpm_limit
            ((get_rpm_count m1 (m1.api_keys.getD ((start + checked) % n) "") model false now).2)
            (m1.api_keys.getD ((start + checked) % n) "") model false now).1) = true) :=
        fun h => hpass ((scan_cond_iff m1 _ model now).mp h)
      have hP2 : (is_key_within_rpm_limit
            (cleaned_at m1 (m1.api_keys.getD ((start + checked) % n) "") model now)
            (m1.api_keys.getD ((start + checked) % n) "") model false now).2
          = cleaned_at (cleaned_at m1 (m1.api_keys.getD ((start + checked) % n) "") model now)
              (m1.api_keys.getD ((start + checked) % n) "") model now := rfl
      have hkeys2 : ((is_key_within_rpm_limit
            ((get_rpm_count m1 (m1.api_keys.getD ((start + checked) % n) "") model false now).2)
            (m1.api_keys.getD ((start + checked) % n) "") model false now).2).api_keys
          = m1.api_keys := by
        rw [show ((get_rpm_count m1 (m1.api_keys.getD ((start + checked) % n) "") model
              false now).2)
            = cleaned_at m1 (m1.api_keys.getD ((start + checked) % n) "") model now from rfl,
          hP2, cleaned_at_api_keys, cleaned_at_api_keys]
      have hstab : ∀ k', key_passes ((is_key_within_rpm_limit
            ((get_rpm_count m1 (m1.api_keys.getD ((start + checked) % n) "") model false now).2)
            (m1.api_keys.getD ((start + checked) % n) "") model false now).2) k' model now
          ↔ key_passes m1 k' model now := by
        intro k'
        exact (key_passes_cleaned
            (cleaned_at m1 (m1.api_keys.getD ((start + checked) % n) "") model now)
            (m1.api_keys.getD ((start + checked) % n) "") k' model now).trans
          (key_passes_cleaned m1 (m1.api_keys.getD ((start + checked) % n) "") k' model now)
      have hex' : ∃ j, checked + 1 ≤ j ∧ j + 1 < n ∧
          key_passes ((is_key_within_rpm_limit
            ((get_rpm_count m1 (m1.api_keys.getD ((start + checked) % n) "") model false now).2)
            (m1.api_keys.getD ((start + checked) % n) "") model false now).2)
            (((is_key_within_rpm_limit
              ((get_rpm_count m1 (m1.api_keys.getD ((start + checked) % n) "") model
                false now).2)
              (m1.api_keys.getD ((start + checked) % n) "") model false now).2).api_keys.getD
                ((start + j) % n) "") model now := by
        rcases hex with ⟨j, hcj, hjn, hpassj⟩
        refine ⟨j, ?_, hjn, ?_⟩
        · rcases Nat.eq_or_lt_of_le hcj with heq | hlt
          · exfalso
            rw [← heq] at hpassj
            exact hpass hpassj
          · omega
        · rw [hkeys2]
          exact (hstab _).mpr hpassj
      have hres := ih (checked + 1) _
        (by rw [hkeys2]; exact hlen)
        (by rw [hkeys2]; exact hnodup)
        hia
        (by rw [hkeys2]; exact hga)
        hstart
        (by omega)
        hex'
      rcases hres with ⟨k, m2, hkeq, hkne⟩
      refine ⟨k, m2, ?_, hkne⟩
      simp only [rpm_scan_loop]
      rw [if_neg hcondf]
      exact hkeq

/-- When the rotating scan finds a key, the post-cache phase returns
exactly that scan result. -/
theorem choose_scan_phase_of_scan_some (m' : KeyManager) (model : String) (now : ℤ)
    (key : String) (m2 : KeyManager)
    (hne : m'.api_keys ≠ [])
    (hs : rpm_scan_loop model now m'.current_key_index m'.api_keys.length
        m'.api_keys.length 0 m' = (some key, m2)) :
    choose_scan_phase m' model now = (key, m2) := by
  rw [choose_scan_phase, if_neg (by simp [List.isEmpty_iff, hne])]
  dsimp only
  rw [hs]

/-- Claim C2 (amended): `handle_api_failure(key, retries, model)` with a
truthy model always increments the failed key's counter by one; when
`retries < MAX_RETRIES` it clears the cached key and returns
`choose(model)` on the incremented state; when `retries >= MAX_RETRIES`
it returns the empty string with no new selection.  The returned key
differs from the failed key when the pool has at least two distinct keys,
the cursor sits one past the failed key (the state `choose` leaves
behind), and some other key is enabled and under its RPM limit — not
merely when the pool has more than one key. -/
theorem C2_amended (st : Settings) (m : KeyManager) (a mo : String)
    (retries : Nat) (now : ℤ) (fuel ia : Nat) (hmo : mo ≠ "") :
    (∀ r, handle_api_failure st m a retries (some mo) now fuel = some r →
        r.2.key_failure_counts a = m.key_failure_counts a + 1)
    ∧ (retries < st.MAX_RETRIES →
        handle_api_failure st m a retries (some mo) now fuel
          = some (get_next_working_key_with_rpm
              { m with
                  key_failure_counts := fun k =>
                    if k = a then m.key_failure_counts k + 1 else m.key_failure_counts k,
                  current_key := none } mo now))
    ∧ (retries < st.MAX_RETRIES → 2 ≤ m.api_keys.length → m.api_keys.Nodup →
        ia < m.api_keys.length → m.api_keys.getD ia "" = a →
        m.current_key_index = (ia + 1) % m.api_keys.length →
        (∃ k', k' ∈ m.api_keys ∧ k' ≠ a
          ∧ m.key_failure_counts k' < m.MAX_FAILURES
          ∧ (clean_old_requests m.rpm_window_seconds now (m.key_request_times k' mo)).length
              < get_rpm_limit_for_model m mo) →
        ∀ r, handle_api_failure st m a retries (some mo) now fuel = some r → r.1 ≠ a)
    ∧ (st.MAX_RETRIES ≤ retries →
        handle_api_failure st m a retries (some mo) now fuel
          = some ("", { m with key_failure_counts := fun k =>
              if k = a then m.key_failure_counts k + 1 else m.key_failure_counts k })) := by
  have htr : opt_str_truthy (some mo) = true := by simp [opt_str_truthy, hmo]
  have heqlt : retries < st.MAX_RETRIES →
      handle_api_failure st m a retries (some mo) now fuel
        = some (get_next_working_key_with_rpm
            { m with
                key_failure_counts := fun k =>
                  if k = a then m.key_failure_counts k + 1 else m.key_failure_counts k,
                current_key := none } mo now) := by
    intro h
    simp only [handle_api_failure, htr, if_true, h, Option.getD_some]
  have heqge : st.MAX_RETRIES ≤ retries →
      handle_api_failure st m a retries (some mo) now fuel
        = some ("", { m with key_failure_counts := fun k =>
            if k = a then m.key_failure_counts k + 1 else m.key_failure_counts k }) := by
    intro h
    have hn : ¬(retries < st.MAX_RETRIES) := Nat.not_lt.mpr h
    simp only [handle_api_failure, hn, if_false]
  refine ⟨?_, heqlt, ?_, heqge⟩
  · intro r hr
    by_cases hlt : retries < st.MAX_RETRIES
    · rw [heqlt hlt] at hr
      have hr' : r = get_next_working_key_with_rpm
          { m with
              key_failure_counts := fun k =>
                if k = a then m.key_failure_counts k + 1 else m.key_failure_counts k,
              current_key := none } mo now := (Option.some.inj hr).symm
      rw [hr', choose_preserves_counts]
      show (if a = a then m.key_failure_counts a + 1 else m.key_failure_counts a) = _
      rw [if_pos rfl]
    · rw [heqge (Nat.not_lt.mp hlt)] at hr
      have hr' : r = ("", { m with key_failure_counts := fun k =>
          if k = a then m.key_failure_counts k + 1 else m.key_failure_counts k }) :=
        (Option.some.inj hr).symm
      rw [hr']
      show (if a = a then m.key_failure_counts a + 1 else m.key_failure_counts a) = _
      rw [if_pos rfl]
  · intro hret hn2 hnodup hia hga hcur hother r hr
    rw [heqlt hret] at hr
    have hnnil : m.api_keys ≠ [] := by
      intro h0
      rw [h0] at hn2
      simp at hn2
    rcases hother with ⟨k', hk'mem, hk'ne, hk'valid, hk'rpm⟩
    rcases List.mem_iff_getElem.mp hk'mem with ⟨i', hi'lt, hi'eq⟩
    have hgD : m.api_keys.getD i' "" = k' := by
      rw [List.getD_eq_getElem?_getD, List.getElem?_eq_getElem hi'lt, Option.getD_some]
      exact hi'eq
    have hi'ne : i' ≠ ia := by
      intro h0
      apply hk'ne
      rw [← hgD, h0, hga]
    have hoff : ∃ j, j + 1 < m.api_keys.length ∧
        ((ia + 1) % m.api_keys.length + j) % m.api_keys.length = i' := by
      rcases Nat.lt_or_ge (ia + 1) m.api_keys.length with hlt | hge
      · rw [Nat.mod_eq_of_lt hlt]
        rcases Nat.lt_or_ge i' (ia + 1) with h2 | h2
        · refine ⟨i' + m.api_keys.length - (ia + 1), by omega, ?_⟩
          have h3 : ia + 1 + (i' + m.api_keys.length - (ia + 1))
              = i' + m.api_keys.length := by omega
          rw [h3, Nat.add_mod_right, Nat.mod_eq_of_lt hi'lt]
        · refine ⟨i' - (ia + 1), by omega, ?_⟩
          have h3 : ia + 1 + (i' - (ia + 1)) = i' := by omega
          rw [h3, Nat.mod_eq_of_lt hi'lt]
      · have hian : ia + 1 = m.api_keys.length := by omega
        rw [hian, Nat.mod_self]
        exact ⟨i', by omega, by rw [Nat.zero_add, Nat.mod_eq_of_lt hi'lt]⟩
    rcases hoff with ⟨j, hjlt, hjeq⟩
    have hpassk' : key_passes
        { m with
            key_failure_counts := fun k =>
              if k = a then m.key_failure_counts k + 1 else m.key_failure_counts k,
            current_key := none, current_model := some mo } k' mo now := by
      refine ⟨?_, ?_⟩
      · show (if k' = a then m.key_failure_counts k' + 1 else m.key_failure_counts k')
            < m.MAX_FAILURES
        rw [if_neg hk'ne]
        exact hk'valid
      · show (clean_old_requests m.rpm_window_seconds now (m.key_request_times k' mo)).length
            < get_rpm_limit_for_model _ mo
        rw [get_rpm_limit_eq_of]
        rw [get_rpm_limit_eq_of] at hk'rpm
        exact hk'rpm
    obtain ⟨k, m2, hscan, hkna⟩ :=
      rpm_scan_loop_avoids mo now
        (({ m with
            key_failure_counts := fun k =>
              if k = a then m.key_failure_counts k + 1 else m.key_failure_counts k,
            current_key := none, current_model := some mo } : KeyManager).current_key_index)
        m.api_keys.length a ia m.api_keys.length 0
        { m with
            key_failure_counts := fun k =>
              if k = a then m.key_failure_counts k + 1 else m.key_failure_counts k,
            current_key := none, current_model := some mo }
        rfl hnodup hia hga hcur (by omega)
        ⟨j, Nat.zero_le j, hjlt, by
          show key_passes _ (m.api_keys.getD ((m.current_key_index + j)
            % m.api_keys.length) "") mo now
          rw [hcur, hjeq, hgD]
          exact hpassk'⟩
    have hphase : choose_scan_phase
        { m with
            key_failure_counts := fun k =>
              if k = a then m.key_failure_counts k + 1 else m.key_failure_counts k,
            current_key := none, current_model := some mo } mo now = (k, m2) :=
      choose_scan_phase_of_scan_some _ mo now k m2 hnnil hscan
    rw [choose_cache_cond_false _ mo now (by simp [opt_str_truthy])] at hr
    have hr' : r = (k, m2) := by
      rw [← hphase]
      exact (Option.some.inj hr).symm
    rw [hr']
    exact hkna

/-- Counterexample to C2 as stated: pool `["a", "b"]` with `"b"` disabled
by 3 failures.  `handle_api_failure("a", 1, "m")` re-selects the failed
key `"a"` even though the pool has two keys, because no other key is
available. -/
theorem C2_counterexample :
    cex2.api_keys.length = 2
    ∧ 1 < witS.MAX_RETRIES
    ∧ (handle_api_failure witS cex2 "a" 1 (some "m") 0 0).map Prod.fst = some "a" := by
  refine ⟨by decide, by decide, ?_⟩
  decide

/-- Witness for C2 (amended): pool `["a", "b"]`, both healthy, cursor one
past `"a"`; failing `"a"` hands the next attempt a different key. -/
theorem C2_witness :
    (handle_api_failure witS wit2 "a" 1 (some "m") 0 0).map Prod.fst ≠ some "a" := by
  have h := (C2_amended witS wit2 "a" "m" 1 0 0 0 (by decide)).2.2.1
    (by decide) (by decide) (by decide) (by decide) (by decide) (by decide)
    ⟨"b", by decide, by decide, by decide, by decide⟩
  intro hcontra
  rcases hval : handle_api_failure witS wit2 "a" 1 (some "m") 0 0 with _ | r
  · rw [hval] at hcontra
    exact Option.noConfusion hcontra
  · rw [hval] at hcontra
    exact h r hval (Option.some.inj hcontra)

/-! ### Termination of the selection loops (C10) -/

/-- An in-bounds `getD` is a member of the list. -/
theorem getD_mem_of_lt (l : List String) {i : Nat} (hi : i < l.length) :
    l.getD i "" ∈ l := by
  rw [List.getD_eq_getElem?_getD, List.getElem?_eq_getElem hi]
  exact List.getElem_mem hi

/-- `get_next_vertex_key` on a non-empty auxiliary pool: the key at the
vertex cursor, with the cursor advanced modulo the pool size. -/
theorem get_next_vertex_key_spec (m : KeyManager) (hne : m.vertex_api_keys ≠ []) :
    get_next_vertex_key m = (m.vertex_api_keys.getD m.current_vertex_key_index "",
      { m with current_vertex_key_index :=
          (m.current_vertex_key_index + 1) % m.vertex_api_keys.length }) := by
  rw [get_next_vertex_key, if_neg (by simp [List.isEmpty_iff, hne])]

/-- The legacy `while True` loop returns within the fuel bound whenever
some upcoming rotation draw yields the initially drawn key: each
iteration either returns (valid key, or the draw equals the initial key)
or advances the cursor by one. -/
theorem working_key_loop_total (ik : String) :
    ∀ (fuel : Nat) (m : KeyManager) (ck : String),
      m.api_keys ≠ [] →
      m.current_key_index < m.api_keys.length →
      (∃ t, t < fuel ∧
        m.api_keys.getD ((m.current_key_index + t) % m.api_keys.length) "" = ik) →
      (working_key_loop fuel m ik ck).isSome := by
  intro fuel
  induction fuel with
  | zero =>
    intro m ck hne hidx hex
    rcases hex with ⟨t, ht, _⟩
    omega
  | succ fuel ih =>
    intro m ck hne hidx hex
    have hnpos : 0 < m.api_keys.length := List.length_pos.mpr hne
    have hgnk : get_next_key m = (m.api_keys.getD m.current_key_index "",
        { m with current_key_index := (m.current_key_index + 1) % m.api_keys.length }) := by
      rw [get_next_key, if_neg (by simp [List.isEmpty_iff, hne])]
    rw [working_key_loop]
    by_cases hval : is_key_valid m ck = true
    · rw [if_pos hval]
      rfl
    · rw [if_neg hval]
      dsimp only
      by_cases hik : (get_next_key m).1 = ik
      · rw [if_pos hik]
        rfl
      · rw [if_neg hik]
        rcases hex with ⟨t, htf, hteq⟩
        have ht0 : t ≠ 0 := by
          intro h0
          apply hik
          rw [hgnk]
          rw [h0, Nat.add_zero, Nat.mod_eq_of_lt hidx] at hteq
          exact hteq
        apply ih
        · rw [hgnk]
          exact hne
        · rw [hgnk]
          exact Nat.mod_lt _ hnpos
        · refine ⟨t - 1, by omega, ?_⟩
          rw [hgnk]
          show m.api_keys.getD
            (((m.current_key_index + 1) % m.api_keys.length + (t - 1))
              % m.api_keys.length) "" = ik
          rw [Nat.mod_add_mod]
          have h3 : m.current_key_index + 1 + (t - 1) = m.current_key_index + t := by omega
          rw [h3]
          exact hteq

/-- The vertex scan loop returns within fuel `|pool| - |checked| + 1`:
every iteration either returns (already-checked key reached, direct hit,
least-used or forced exit) or adds the not-yet-checked current key to
`checked_keys`, whose size is bounded by the pool size since it stays a
duplicate-free sublist of the pool. -/
theorem vertex_scan_loop_total (model : String) (now : ℤ) (keys0 : List String) :
    ∀ (fuel : Nat) (ck : String) (checked : List String) (m : KeyManager),
      m.vertex_api_keys = keys0 →
      m.current_vertex_key_index < keys0.length →
      ck ∈ keys0 →
      checked.Nodup →
      (∀ x ∈ checked, x ∈ keys0) →
      keys0.length < fuel + checked.length →
      (vertex_scan_loop model now fuel ck checked m).isSome := by
  intro fuel
  induction fuel with
  | zero =>
    intro ck checked m hkeys hidx hck hnd hsub hlen
    exfalso
    have hle : checked.length ≤ keys0.length :=
      (List.subperm_of_subset hnd hsub).length_le
    omega
  | succ fuel ih =>
    intro ck checked m hkeys hidx hck hnd hsub hlen
    have hne : m.vertex_api_keys ≠ [] := by
      rw [hkeys]
      intro h0
      rw [h0] at hck
      exact List.not_mem_nil ck hck
    have hnpos : 0 < keys0.length := by
      rw [← hkeys]
      exact List.length_pos.mpr hne
    rw [vertex_scan_loop]
    by_cases hmem : ck ∈ checked
    · rw [if_pos hmem]
      rcases hleast : get_least_used_vertex_key m model now with ⟨ob, m2⟩
      cases ob <;> rfl
    · rw [if_neg hmem]
      dsimp only
      have hstep : ∀ m' : KeyManager, m'.vertex_api_keys = keys0 →
          m'.current_vertex_key_index < keys0.length →
          (vertex_scan_loop model now fuel (get_next_vertex_key m').1 (ck :: checked)
            (get_next_vertex_key m').2).isSome := by
        intro m' hk' hi'
        have hne' : m'.vertex_api_keys ≠ [] := by
          rw [hk']
          intro h0
          rw [h0] at hnpos
          simp at hnpos
        rw [get_next_vertex_key_spec m' hne']
        apply ih
        · exact hk'
        · rw [hk']
          exact Nat.mod_lt _ hnpos
        · rw [hk']
          apply getD_mem_of_lt
          rw [← hk']
          exact Nat.lt_of_lt_of_le hi' (by rw [hk'])
        · exact List.nodup_cons.mpr ⟨hmem, hnd⟩
        · intro x hx
          rcases List.mem_cons.mp hx with h | h
          · rw [h]
            exact hck
          · exact hsub x h
        · simp only [List.length_cons]
          omega
      by_cases hval : is_vertex_key_valid m ck = true
      · rw [if_pos hval]
        by_cases hp : (is_key_within_rpm_limit m ck model true now).1 = true
        · rw [if_pos hp]
          rfl
        · rw [if_neg hp]
          exact hstep (is_key_within_rpm_limit m ck model true now).2 hkeys hidx
      · rw [if_neg hval]
        exact hstep m hkeys hidx

/-- Claim C10: for every non-empty pool (with the cursor in range, an
invariant of every constructed state), the legacy `get_next_working_key`
returns within `len(api_keys)` iterations — it stops at the first valid
key or when the rotation wraps back to the initially drawn key — and the
checked-keys scan of `get_next_working_vertex_key_with_rpm` returns
within `len(vertex_api_keys) + 1` iterations, because each iteration
either returns or adds a new key to `checked_keys`, whose size is bounded
by the pool size. -/
theorem C10_termination (m : KeyManager) (model : String) (now : ℤ) :
    (m.api_keys ≠ [] → m.current_key_index < m.api_keys.length →
      (get_next_working_key m m.api_keys.length).isSome)
    ∧ (m.vertex_api_keys ≠ [] →
        m.current_vertex_key_index < m.vertex_api_keys.length →
        (get_next_working_vertex_key_with_rpm m model now
          (m.vertex_api_keys.length + 1)).isSome) := by
  constructor
  · intro hne hidx
    have hnpos : 0 < m.api_keys.length := List.length_pos.mpr hne
    have hgnk : get_next_key m = (m.api_keys.getD m.current_key_index "",
        { m with current_key_index := (m.current_key_index + 1) % m.api_keys.length }) := by
      rw [get_next_key, if_neg (by simp [List.isEmpty_iff, hne])]
    unfold get_next_working_key
    dsimp only
    rw [hgnk]
    refine working_key_loop_total _ m.api_keys.length _ _ hne (Nat.mod_lt _ hnpos)
      ⟨m.api_keys.length - 1, by omega, ?_⟩
    show m.api_keys.getD (((m.current_key_index + 1) % m.api_keys.length
        + (m.api_keys.length - 1)) % m.api_keys.length) "" = _
    rw [Nat.mod_add_mod]
    have h3 : m.current_key_index + 1 + (m.api_keys.length - 1)
        = m.current_key_index + m.api_keys.length := by omega
    rw [h3, Nat.add_mod_right, Nat.mod_eq_of_lt hidx]
  · intro hne hidx
    have hnpos : 0 < m.vertex_api_keys.length := List.length_pos.mpr hne
    have hmain : ∀ m' : KeyManager, m'.vertex_api_keys = m.vertex_api_keys →
        m'.current_vertex_key_index = m.current_vertex_key_index →
        (vertex_scan_loop model now (m.vertex_api_keys.length + 1)
          (get_next_vertex_key m').1 [] (get_next_vertex_key m').2).isSome := by
      intro m' hk hi
      have hne' : m'.vertex_api_keys ≠ [] := by
        rw [hk]
        exact hne
      rw [get_next_vertex_key_spec m' hne']
      apply vertex_scan_loop_total model now m.vertex_api_keys
      · exact hk
      · show (m'.current_vertex_key_index + 1) % m'.vertex_api_keys.length < _
        rw [hk]
        exact Nat.mod_lt _ hnpos
      · show m'.vertex_api_keys.getD m'.current_vertex_key_index "" ∈ _
        rw [hk, hi]
        exact getD_mem_of_lt _ hidx
      · exact List.nodup_nil
      · intro x hx
        exact absurd hx (List.not_mem_nil x)
      · simp
    unfold get_next_working_vertex_key_with_rpm
    dsimp only
    by_cases h1 : (m.rpm_prefer_cache && opt_str_truthy m.current_vertex_key) = true
    · rw [if_pos h1]
      by_cases h2 : is_vertex_key_valid m (m.current_vertex_key.getD "") = true
      · rw [if_pos h2]
        by_cases h3 : (is_key_within_rpm_limit m (m.current_vertex_key.getD "")
            model true now).1 = true
        · rw [if_pos h3]
          rfl
        · rw [if_neg h3]
          exact hmain _ rfl rfl
      · rw [if_neg h2]
        exact hmain m rfl rfl
    · rw [if_neg h1]
      exact hmain m rfl rfl

/-- Witness for C10: both loops return a value on a two-key pool with the
exact fuel bounds. -/
theorem C10_witness :
    (get_next_working_key wit10 wit10.api_keys.length).isSome
    ∧ (get_next_working_vertex_key_with_rpm wit10 "m" 0
        (wit10.vertex_api_keys.length + 1)).isSome :=
  ⟨(C10_termination wit10 "m" 0).1 (by decide) (by decide),
   (C10_termination wit10 "m" 0).2 (by decide) (by decide)⟩

/-! ### Reconfigure preservation (C4) -/

/-- On a duplicate-free list, `findIdx?` for the key stored at index `i`
returns exactly `i` (offset by the accumulator `s`). -/
theorem findIdxQ_nodup_spec (x : String) :
    ∀ (l : List String) (i : Nat), l.Nodup → i < l.length → l.getD i "" = x →
      ∀ s : Nat, List.findIdx? (fun y => y == x) l s = some (s + i) := by
  intro l
  induction l with
  | nil =>
    intro i _ hi
    simp at hi
  | cons a t ih =>
    intro i hnd hi hgd s
    rw [List.findIdx?_cons]
    cases i with
    | zero =>
      rw [List.getD_cons_zero] at hgd
      rw [if_pos (by rw [hgd]; exact beq_self_eq_true x), Nat.add_zero]
    | succ j =>
      rw [List.getD_cons_succ] at hgd
      have hjt : j < t.length := by
        simp only [List.length_cons] at hi
        omega
      have hat : a ≠ x := by
        intro h0
        have hmem : x ∈ t := by
          rw [← hgd]
          exact getD_mem_of_lt t hjt
        rw [h0] at hnd
        exact (List.nodup_cons.mp hnd).1 hmem
      rw [if_neg (by simp [hat])]
      have := ih j (List.nodup_cons.mp hnd).2 hjt hgd (s + 1)
      rw [this]
      have h3 : s + 1 + j = s + (j + 1) := by omega
      rw [h3]

/-- `findIdx?` for a member succeeds, and the found index holds the key. -/
theorem findIdxQ_mem_spec_aux (x : String) :
    ∀ (l : List String), x ∈ l → ∀ s : Nat,
      ∃ i, List.findIdx? (fun y => y == x) l s = some (s + i) ∧ i < l.length ∧
        l.getD i "" = x := by
  intro l
  induction l with
  | nil =>
    intro hx
    exact absurd hx (List.not_mem_nil x)
  | cons a t ih =>
    intro hx s
    by_cases h : (a == x) = true
    · refine ⟨0, ?_, by simp, ?_⟩
      · rw [List.findIdx?_cons, if_pos h, Nat.add_zero]
      · rw [List.getD_cons_zero]
        exact eq_of_beq h
    · have hx' : x ∈ t := by
        rcases List.mem_cons.mp hx with h1 | h1
        · exact absurd (by rw [h1]; exact beq_self_eq_true a) h
        · exact h1
      obtain ⟨i, hf, hlt, hgd⟩ := ih hx' (s + 1)
      refine ⟨i + 1, ?_, ?_, ?_⟩
      · rw [List.findIdx?_cons, if_neg h, hf]
        have h3 : s + 1 + i = s + (i + 1) := by omega
        rw [h3]
      · simp only [List.length_cons]
        omega
      · rw [List.getD_cons_succ]
        exact hgd

/-- `findSome?` over `range n` returns the value at the first index whose
image is `some`. -/
theorem range_findSome_of_first {α : Type} :
    ∀ (n : Nat) (f : Nat → Option α) (i : Nat), i < n →
      (∀ t, t < i → f t = none) → (f i).isSome →
      (List.range n).findSome? f = f i := by
  intro n
  induction n with
  | zero =>
    intro f i hi
    omega
  | succ n ih =>
    intro f i hi hmiss hsome
    rw [List.range_succ_eq_map, List.findSome?_cons]
    cases i with
    | zero =>
      obtain ⟨v, hv⟩ := Option.isSome_iff_exists.mp hsome
      rw [hv]
    | succ j =>
      rw [hmiss 0 (Nat.succ_pos j), List.findSome?_map]
      exact ih (fun t => f t.succ) j (by omega) (fun t ht => hmiss (t + 1) (by omega)) hsome

/-- The count-restoration fold leaves keys untouched that appear in no
preserved binding. -/
theorem restore_foldl_ne (new_keys : List String) (k : String) :
    ∀ (pf : List (String × Nat)) (f : String → Nat),
      (∀ kc ∈ pf, kc.1 ≠ k) →
      (pf.foldl
        (fun f kc =>
          if kc.1 ∈ new_keys then (fun k2 => if k2 = kc.1 then kc.2 else f k2) else f)
        f) k = f k := by
  intro pf
  induction pf with
  | nil =>
    intro f _
    rfl
  | cons kc t ih =>
    intro f hne
    rw [List.foldl_cons]
    rw [ih _ (fun kc2 h2 => hne kc2 (List.mem_cons_of_mem kc h2))]
    by_cases hmem : kc.1 ∈ new_keys
    · rw [if_pos hmem]
      show (if k = kc.1 then kc.2 else f k) = f k
      rw [if_neg (fun h0 => hne kc (List.mem_cons_self kc t) h0.symm)]
    · rw [if_neg hmem]

/-- The count-restoration fold assigns a new-pool key its preserved value
when the preserved bindings have duplicate-free keys. -/
theorem restore_foldl_mem (new_keys : List String) (k : String) (hk : k ∈ new_keys) :
    ∀ (pf : List (String × Nat)) (f : String → Nat) (v : Nat),
      (k, v) ∈ pf → (pf.map Prod.fst).Nodup →
      (pf.foldl
        (fun f kc =>
          if kc.1 ∈ new_keys then (fun k2 => if k2 = kc.1 then kc.2 else f k2) else f)
        f) k = v := by
  intro pf
  induction pf with
  | nil =>
    intro f v hmem
    exact absurd hmem (List.not_mem_nil _)
  | cons kc t ih =>
    intro f v hmem hnd
    rw [List.map_cons] at hnd
    rcases List.mem_cons.mp hmem with heq | hmem'
    · have h1 : kc.1 = k := by rw [← heq]
      have h2 : kc.2 = v := by rw [← heq]
      have hknot : ∀ kc2 ∈ t, kc2.1 ≠ k := by
        intro kc2 h2t h0
        apply (List.nodup_cons.mp hnd).1
        rw [h1, ← h0]
        exact List.mem_map_of_mem Prod.fst h2t
      rw [List.foldl_cons, restore_foldl_ne new_keys k t _ hknot]
      rw [← h1] at hk
      rw [if_pos hk]
      show (if k = kc.1 then kc.2 else f k) = v
      rw [h1, if_pos rfl, h2]
    · rw [List.foldl_cons]
      exact ih _ v hmem' (List.nodup_cons.mp hnd).2

/-- `findSome?` over `range n` misses when every index maps to `none`. -/
theorem range_findSome_none {α : Type} :
    ∀ (n : Nat) (f : Nat → Option α), (∀ t, t < n → f t = none) →
      (List.range n).findSome? f = none := by
  intro n
  induction n with
  | zero =>
    intro f _
    rfl
  | succ n ih =>
    intro f hmiss
    rw [List.range_succ_eq_map, List.findSome?_cons, hmiss 0 (Nat.succ_pos n),
      List.findSome?_map]
    exact ih (fun t => f t.succ) (fun t ht => hmiss (t + 1) (by omega))

/-- `_determine_start_key` walks the old pool from the preserved next key
(wrapping) and returns the first key that survived into the new pool. -/
theorem determine_start_key_hit (old : List String) (new_keys : List String)
    (hnd : old.Nodup) (i0 : Nat) (hi0 : i0 < old.length)
    (j : Nat) (hj : j < old.length)
    (hhit : old.getD ((i0 + j) % old.length) "" ∈ new_keys)
    (hmiss : ∀ t, t < j → old.getD ((i0 + t) % old.length) "" ∉ new_keys) :
    determine_start_key old (old.getD i0 "") new_keys
      = some (old.getD ((i0 + j) % old.length) "") := by
  simp only [determine_start_key]
  rw [findIdxQ_nodup_spec (old.getD i0 "") old i0 hnd hi0 rfl 0, Nat.zero_add]
  dsimp only
  have h1 := range_findSome_of_first old.length
      (fun i => if old.getD ((i0 + i) % old.length) "" ∈ new_keys
        then some (old.getD ((i0 + i) % old.length) "") else none) j hj
      (fun t ht => if_neg (hmiss t ht))
      (by show (if old.getD ((i0 + j) % old.length) "" ∈ new_keys
            then some (old.getD ((i0 + j) % old.length) "") else none).isSome = true
          rw [if_pos hhit]
          rfl)
  rw [h1]
  exact if_pos hhit

/-- When no old key survives into the new pool, the cursor scan finds
nothing. -/
theorem determine_start_key_none_of_no_survivor (old : List String)
    (new_keys : List String) (hnd : old.Nodup) (i0 : Nat) (hi0 : i0 < old.length)
    (hmiss : ∀ t, t < old.length → old.getD ((i0 + t) % old.length) "" ∉ new_keys) :
    determine_start_key old (old.getD i0 "") new_keys = none := by
  simp only [determine_start_key]
  rw [findIdxQ_nodup_spec (old.getD i0 "") old i0 hnd hi0 rfl 0, Nat.zero_add]
  dsimp only
  exact range_findSome_none old.length _ (fun t ht => if_neg (hmiss t ht))

/-- A hit of the cursor scan is an old key that survived into the new
pool. -/
theorem determine_start_key_mem (old : List String) (nk : String)
    (new_keys : List String) (sk : String)
    (h : determine_start_key old nk new_keys = some sk) :
    sk ∈ old ∧ sk ∈ new_keys := by
  simp only [determine_start_key] at h
  rcases hidx : List.findIdx? (fun y => y == nk) old 0 with _ | i0
  · rw [hidx] at h
    exact absurd h Option.noConfusion
  · rw [hidx] at h
    dsimp only at h
    obtain ⟨a, ha_mem, ha⟩ := List.exists_of_findSome?_eq_some h
    have hlen : 0 < old.length := by
      have := List.mem_range.mp ha_mem
      omega
    by_cases hc : old.getD ((i0 + a) % old.length) "" ∈ new_keys
    · rw [if_pos hc] at ha
      have hsk : old.getD ((i0 + a) % old.length) "" = sk := Option.some.inj ha
      rw [← hsk]
      exact ⟨getD_mem_of_lt old (Nat.mod_lt _ hlen), hc⟩
    · rw [if_neg hc] at ha
      exact absurd ha Option.noConfusion

/-- Claim C4: across `reset_key_manager_instance` followed by
`get_key_manager_instance` with a new key list (duplicate-free non-empty
old pool, in-range cursor, no empty-string keys, empty auxiliary pools),
the new instance preserves each surviving key's failure count, starts
every key absent from the old pool at 0, and positions the rotation
cursor on the first old key at or after the preserved next key (in old
order, wrapping) that survives into the new pool — so a healthy first
`choose` returns exactly that key; when no old key survives the cursor
stays at the front of the new list and a healthy first `choose` returns
the front key. -/
theorem C4_reconfigure (km : KeyManager) (st : Settings)
    (newKeys : List String) (model : String) (now : ℤ)
    (hnd_old : km.api_keys.Nodup)
    (hne_old : km.api_keys ≠ [])
    (hidx : km.current_key_index < km.api_keys.length)
    (hnil_old : "" ∉ km.api_keys)
    (hv_old : km.vertex_api_keys = [])
    (hnew : newKeys ≠ []) :
    ∃ m' s2,
      get_key_manager_instance
          (reset_key_manager_instance { empty_singleton_state with inst := some km })
          st (some newKeys) (some [])
        = some (m', s2)
      ∧ s2.inst = some m'
      ∧ m'.api_keys = newKeys
      ∧ (∀ k, k ∈ newKeys → k ∈ km.api_keys →
          m'.key_failure_counts k = km.key_failure_counts k)
      ∧ (∀ k, k ∉ km.api_keys → m'.key_failure_counts k = 0)
      ∧ (∀ j, j < km.api_keys.length →
          km.api_keys.getD ((km.current_key_index + j) % km.api_keys.length) "" ∈ newKeys →
          (∀ t, t < j →
            km.api_keys.getD ((km.current_key_index + t) % km.api_keys.length) ""
              ∉ newKeys) →
          determine_start_key km.api_keys
              (km.api_keys.getD km.current_key_index "") newKeys
            = some (km.api_keys.getD
                ((km.current_key_index + j) % km.api_keys.length) ""))
      ∧ (∀ sk, determine_start_key km.api_keys
            (km.api_keys.getD km.current_key_index "") newKeys = some sk →
          newKeys.getD m'.current_key_index "" = sk
          ∧ (m'.key_failure_counts sk < st.MAX_FAILURES →
              0 < rpm_limit_of st.RPM_LIMITS model →
              (get_next_working_key_with_rpm m' model now).1 = sk))
      ∧ (determine_start_key km.api_keys
            (km.api_keys.getD km.current_key_index "") newKeys = none →
          m'.current_key_index = 0
          ∧ (m'.key_failure_counts (newKeys.getD 0 "") < st.MAX_FAILURES →
              0 < rpm_limit_of st.RPM_LIMITS model →
              (get_next_working_key_with_rpm m' model now).1 = newKeys.getD 0 "")) := by
  have holdE : km.api_keys.isEmpty = false := by
    simp [List.isEmpty_iff, hne_old]
  have hgnk : get_next_key km = (km.api_keys.getD km.current_key_index "",
      { km with current_key_index := (km.current_key_index + 1) % km.api_keys.length }) := by
    rw [get_next_key, if_neg (by simp [List.isEmpty_iff, hne_old])]
  have hs1 : reset_key_manager_instance { empty_singleton_state with inst := some km }
      = { inst := none
          preserved_failure_counts :=
            some (km.api_keys.map (fun k => (k, km.key_failure_counts k)))
          preserved_vertex_failure_counts := some []
          preserved_old_api_keys := some km.api_keys
          preserved_vertex_old_api_keys := some []
          preserved_next_key := some (km.api_keys.getD km.current_key_index "")
          preserved_vertex_next_key := none } := by
    simp only [reset_key_manager_instance]
    rw [hv_old, hgnk]
    simp [holdE]
  have hpfE : (km.api_keys.map (fun k => (k, km.key_failure_counts k))).isEmpty = false := by
    simp [List.isEmpty_iff, List.map_eq_nil_iff, hne_old]
  have hnewE : newKeys.isEmpty = false := by
    simp [List.isEmpty_iff, hnew]
  have hnk_mem : km.api_keys.getD km.current_key_index "" ∈ km.api_keys :=
    getD_mem_of_lt _ hidx
  have hnkne : km.api_keys.getD km.current_key_index "" ≠ "" := by
    intro h0
    rw [h0] at hnk_mem
    exact hnil_old hnk_mem
  have hnkd : decide (km.api_keys.getD km.current_key_index "" ≠ "") = true :=
    decide_eq_true hnkne
  have hpf_fst : (km.api_keys.map (fun k => (k, km.key_failure_counts k))).map Prod.fst
      = km.api_keys := by
    simp [Function.comp_def]
  have hcnt1 : ∀ k, k ∈ newKeys → k ∈ km.api_keys →
      restore_counts newKeys (km.api_keys.map (fun k => (k, km.key_failure_counts k))) k
        = km.key_failure_counts k := by
    intro k hknew hkold
    exact restore_foldl_mem newKeys k hknew _ (fun _ => 0) (km.key_failure_counts k)
      (List.mem_map_of_mem _ hkold) (by rw [hpf_fst]; exact hnd_old)
  have hcnt2 : ∀ k, k ∉ km.api_keys →
      restore_counts newKeys (km.api_keys.map (fun k => (k, km.key_failure_counts k))) k
        = 0 := by
    intro k hkold
    apply restore_foldl_ne
    intro kc hkc
    obtain ⟨k0, hk0, hkeq⟩ := List.mem_map.mp hkc
    rw [← hkeq]
    intro h0
    apply hkold
    rw [← h0]
    exact hk0
  have hscan : ∀ j, j < km.api_keys.length →
      km.api_keys.getD ((km.current_key_index + j) % km.api_keys.length) "" ∈ newKeys →
      (∀ t, t < j →
        km.api_keys.getD ((km.current_key_index + t) % km.api_keys.length) "" ∉ newKeys) →
      determine_start_key km.api_keys
          (km.api_keys.getD km.current_key_index "") newKeys
        = some (km.api_keys.getD
            ((km.current_key_index + j) % km.api_keys.length) "") := by
    intro j hj hhit hmiss
    exact determine_start_key_hit km.api_keys newKeys hnd_old km.current_key_index hidx
      j hj hhit hmiss
  rcases hdet : determine_start_key km.api_keys
      (km.api_keys.getD km.current_key_index "") newKeys with _ | sk
  · -- no surviving old key: cursor stays at the front
    refine ⟨{ mkKeyManager st newKeys [] with
        key_failure_counts := restore_counts newKeys
          (km.api_keys.map (fun k => (k, km.key_failure_counts k))) },
      { inst := some ({ mkKeyManager st newKeys [] with
          key_failure_counts := restore_counts newKeys
            (km.api_keys.map (fun k => (k, km.key_failure_counts k))) } : KeyManager)
        preserved_failure_counts := none
        preserved_vertex_failure_counts := none
        preserved_old_api_keys := none
        preserved_vertex_old_api_keys := none
        preserved_next_key := none
        preserved_vertex_next_key := none }, ?_, rfl, rfl,
      hcnt1, hcnt2,
      (fun j hj hhit hmiss => by rw [← hdet]; exact hscan j hj hhit hmiss), ?_, ?_⟩
    · rw [hs1]
      simp only [get_key_manager_instance, hpfE, hnewE, holdE, hnkd, hdet,
        List.isEmpty_nil, Bool.false_eq_true, Bool.not_false, Bool.true_and,
        Bool.and_true, Bool.and_self, if_false, if_true]
    · intro sk hdet'
      exact absurd hdet' Option.noConfusion
    · intro _
      refine ⟨rfl, ?_⟩
      intro hcnt hlim
      have hidx0 : (0 : Nat) < newKeys.length := List.length_pos.mpr hnew
      have hpass : key_passes
          ({ mkKeyManager st newKeys [] with
              key_failure_counts := restore_counts newKeys
                (km.api_keys.map (fun k => (k, km.key_failure_counts k))) } : KeyManager)
          (newKeys.getD 0 "") model now := by
        refine ⟨hcnt, ?_⟩
        show (clean_old_requests st.RPM_WINDOW_SECONDS now []).length
            < rpm_limit_of st.RPM_LIMITS model
        simpa [clean_old_requests] using hlim
      rw [choose_no_cache_pass _ model now (Or.inr rfl) hnew hidx0 hpass]
      rfl
  · -- survivor sk: cursor moved onto sk's index in the new pool
    obtain ⟨hsk_old, hsk_new⟩ := determine_start_key_mem _ _ _ _ hdet
    have hskne : sk ≠ "" := by
      intro h0
      rw [h0] at hsk_old
      exact hnil_old hsk_old
    have hskd : decide (sk ≠ "") = true := decide_eq_true hskne
    obtain ⟨target, htf, htlt, htgd⟩ := findIdxQ_mem_spec_aux sk newKeys hsk_new 0
    rw [Nat.zero_add] at htf
    refine ⟨{ mkKeyManager st newKeys [] with
        key_failure_counts := restore_counts newKeys
          (km.api_keys.map (fun k => (k, km.key_failure_counts k)))
        current_key_index := target },
      { inst := some ({ mkKeyManager st newKeys [] with
          key_failure_counts := restore_counts newKeys
            (km.api_keys.map (fun k => (k, km.key_failure_counts k)))
          current_key_index := target } : KeyManager)
        preserved_failure_counts := none
        preserved_vertex_failure_counts := none
        preserved_old_api_keys := none
        preserved_vertex_old_api_keys := none
        preserved_next_key := none
        preserved_vertex_next_key := none }, ?_, rfl, rfl,
      hcnt1, hcnt2,
      (fun j hj hhit hmiss => by rw [← hdet]; exact hscan j hj hhit hmiss), ?_, ?_⟩
    · rw [hs1]
      simp only [get_key_manager_instance, hpfE, hnewE, holdE, hnkd, hskd, hdet, htf,
        List.isEmpty_nil, Bool.false_eq_true, Bool.not_false, Bool.true_and,
        Bool.and_true, Bool.and_self, if_false, if_true]
    · intro sk' hdet'
      have hss : sk = sk' := Option.some.inj hdet'
      subst hss
      refine ⟨htgd, ?_⟩
      intro hcnt hlim
      have hpass : key_passes
          ({ mkKeyManager st newKeys [] with
              key_failure_counts := restore_counts newKeys
                (km.api_keys.map (fun k => (k, km.key_failure_counts k)))
              current_key_index := target } : KeyManager)
          (newKeys.getD target "") model now := by
        rw [show newKeys.getD target "" = sk from htgd]
        refine ⟨hcnt, ?_⟩
        show (clean_old_requests st.RPM_WINDOW_SECONDS now []).length
            < rpm_limit_of st.RPM_LIMITS model
        simpa [clean_old_requests] using hlim
      rw [choose_no_cache_pass _ model now (Or.inr rfl) hnew htlt hpass]
      exact htgd
    · intro hdet0
      exact absurd hdet0 Option.noConfusion

/-- Witness for C4, the spec's concrete scenario: old pool `[a, b, c]`
with the cursor about to yield `b` and counts `a=1, c=2`; new pool
`[a, c, d]`.  The counts survive (`d` starts at 0) and the first `choose`
returns `c`, the nearest surviving successor of `b`. -/
theorem C4_witness :
    ∃ m' s2,
      get_key_manager_instance
          (reset_key_manager_instance { empty_singleton_state with inst := some wit4om })
          witS (some ["a", "c", "d"]) (some [])
        = some (m', s2)
      ∧ m'.key_failure_counts "a" = 1
      ∧ m'.key_failure_counts "c" = 2
      ∧ m'.key_failure_counts "d" = 0
      ∧ (get_next_working_key_with_rpm m' "m" 0).1 = "c" := by
  obtain ⟨m', s2, heq, hinst, hkeys, hc1, hc2, hscan, hsurv, hnone⟩ :=
    C4_reconfigure wit4om witS ["a", "c", "d"] "m" 0
      (by decide) (by decide) (by decide) (by decide) rfl (by decide)
  have hdet : determine_start_key wit4om.api_keys
      (wit4om.api_keys.getD wit4om.current_key_index "") ["a", "c", "d"] = some "c" := by
    have h1 := hscan 1 (by decide) (by decide)
      (fun t ht => by
        have ht0 : t = 0 := by omega
        subst ht0
        decide)
    rw [h1]
    decide
  obtain ⟨hgd, hchoose⟩ := hsurv "c" hdet
  refine ⟨m', s2, heq, ?_, ?_, ?_, ?_⟩
  · rw [hc1 "a" (by decide) (by decide)]
    decide
  · rw [hc1 "c" (by decide) (by decide)]
    decide
  · exact hc2 "d" (by decide)
  · exact hchoose (by rw [hc1 "c" (by decide) (by decide)]; decide) (by decide)
